import Mathlib

/-!
A verification development for the pep750-examples repository.

The Python sources under `pep/` are shallowly embedded:

* `pep/__init__.py` : `Interpolation`, `Template`, and the `t` builder.
* `pep/fstring.py`  : `convert` and the renderer `f`.
* `pep/format.py`   : `_parse_fmt_string` and `make_template`.
* `pep/lazy.py`     : `format_some`.
* `pep/reuse.py`    : `Binder`.
* `pep/web.py`      : `Element`, its serialization helpers, the
  `HTMLTemplateParser` event handlers and the `html` driver.

Python's dynamically typed values are embedded as the inductive `Val`;
exceptions are embedded as the `PyErr` sum, and fallible code returns
`Except PyErr`.  Machine-level details that the repository never relies on
(object identity, addresses in `repr` of functions) are not modelled.
Recursive functions over `Val`/`Element` trees and over parser input are
written with an explicit fuel parameter (structurally recursive on the
fuel) so that every definition is executable and reduces by `rfl`; each
wrapper instantiates the fuel with a bound that dominates the recursion
depth.
-/

/-- The kinds of Python exceptions raised by the embedded code. -/
inductive PyErr where
  | valueError (msg : String)
  | keyError (key : String)
  | indexError (msg : String)
  | typeError (msg : String)
  | notImplementedError (msg : String)
  | assertionError
  | htmlParseError (msg : String)
deriving Repr, DecidableEq

mutual

/-- A Python runtime value, restricted to the types the repository's code
actually dispatches on: `str`, `int`, `bool`, `None`, `list`, `dict`
(string keys, as used for attribute mappings and keyword arguments),
zero-argument callables, component callables, `Element` and `Template`.
A component callable consumes attributes and children — a function *over*
values, which a strictly positive inductive cannot store — so `comp`
holds an opaque reference, resolved through the component environment
passed to the embedding of `html` (the environment plays the role of
Python's function heap). -/
inductive Val where
  | str (s : String)
  | int (n : Int)
  | bool (b : Bool)
  | none
  | list (xs : List Val)
  | dict (entries : List (String × Val))
  | func (f : Unit → Val)
  | comp (id : Nat)
  | elem (e : Element)
  | templ (t : Template)

/-- `Element` from pep/web.py: `tag`, ordered `attributes` mapping and
`children` (text or nested elements).  Attribute values are `Val` because
Python does not enforce the `str | None` annotation; the serializer
dispatches with `isinstance`. -/
inductive Element where
  | mk (tag : String) (attributes : List (String × Val)) (children : List (String ⊕ Element))

/-- `Template` from pep/__init__.py: the constructor stores the parts
tuple verbatim (`self.args = args`); it performs no validation or repair. -/
inductive Template where
  | mk (args : List TPart)

/-- One stored part of a `Template`: a literal string or an interpolation. -/
inductive TPart where
  | lit (s : String)
  | interp (i : Interpolation)

/-- `Interpolation` from pep/__init__.py: computed value, source
expression text, optional conversion tag and format spec.
(`string.templatelib` spells the third field `conversion`; the repository's
own class spells it `conv`.  They are the same datum.) -/
inductive Interpolation where
  | mk (value : Val) (expr : String) (conv : Option String) (format_spec : String)

end

def Template.args : Template → List TPart
  | .mk a => a

def Interpolation.value : Interpolation → Val
  | .mk v _ _ _ => v

def Interpolation.expr : Interpolation → String
  | .mk _ e _ _ => e

def Interpolation.conv : Interpolation → Option String
  | .mk _ _ c _ => c

def Interpolation.format_spec : Interpolation → String
  | .mk _ _ _ fs => fs

def Element.tag : Element → String
  | .mk tg _ _ => tg

def Element.attributes : Element → List (String × Val)
  | .mk _ a _ => a

def Element.children : Element → List (String ⊕ Element)
  | .mk _ _ c => c

mutual

/-- A size measure on values, used only to provide a sufficient fuel bound
for the fuel-indexed recursions below (each recursive call consumes at
most the size of the value it descends into). -/
def valSize : Val → Nat
  | .str _ => 1
  | .int _ => 1
  | .bool _ => 1
  | .none => 1
  | .list xs => valListSize xs + 1
  | .dict es => valDictSize es + 1
  | .func _ => 1
  | .comp _ => 1
  | .elem e => elementSize e + 1
  | .templ tp => templateSize tp + 1

def valListSize : List Val → Nat
  | [] => 1
  | v :: rest => valSize v + valListSize rest + 1

def valDictSize : List (String × Val) → Nat
  | [] => 1
  | (_, v) :: rest => valSize v + valDictSize rest + 1

def elementSize : Element → Nat
  | .mk _ attrs children => valDictSize attrs + childrenSize children + 1

def childrenSize : List (String ⊕ Element) → Nat
  | [] => 1
  | .inl _ :: rest => childrenSize rest + 1
  | .inr e :: rest => elementSize e + childrenSize rest + 1

def templateSize : Template → Nat
  | .mk parts => tpartsSize parts + 1

def tpartsSize : List TPart → Nat
  | [] => 1
  | .lit _ :: rest => tpartsSize rest + 1
  | .interp i :: rest => interpolationSize i + tpartsSize rest + 1

def interpolationSize : Interpolation → Nat
  | .mk v _ _ _ => valSize v + 1

end

/-- The ASCII apostrophe character. -/
def squoteChar : Char := Char.ofNat 39

/-- The ASCII double-quote character. -/
def dquoteChar : Char := Char.ofNat 34

/-- Hexadecimal digit for a value below 16. -/
def hexDigit (n : Nat) : Char :=
  "0123456789abcdef".toList.getD n '0'

/-- Two-digit lowercase hex rendering of a byte value. -/
def hexByte (n : Nat) : String :=
  String.mk [hexDigit (n / 16 % 16), hexDigit (n % 16)]

/-- The quote character Python `repr` picks for a string: a single quote,
unless the string contains one and no double quote. -/
def pyReprQuote (s : String) : Char :=
  if s.toList.contains squoteChar && !s.toList.contains dquoteChar then dquoteChar
  else squoteChar

/-- How Python `repr`/`ascii` renders one character of a string literal:
backslash and the chosen quote are escaped, as are the common control
characters; other printable ASCII passes through; everything else is
hex-escaped when below 32 or when `ascii` escaping was requested.  (For
code points above 255 Python uses \u escapes; the repository only ever
reprs ASCII strings, so the single-byte \x form is modelled.) -/
def pyReprChar (q : Char) (ascii : Bool) (c : Char) : String :=
  if c = '\\' then "\\\\"
  else if c = q then "\\" ++ String.mk [q]
  else if c = '\n' then "\\n"
  else if c = '\t' then "\\t"
  else if c = '\r' then "\\r"
  else if 32 ≤ c.toNat ∧ c.toNat < 127 then String.mk [c]
  else if c.toNat < 32 ∨ ascii then "\\x" ++ hexByte c.toNat
  else String.mk [c]

/-- Python `repr` of a string (`ascii` additionally escapes non-ASCII). -/
def pyReprStr (ascii : Bool) (s : String) : String :=
  let q := pyReprQuote s
  String.mk [q] ++ String.join (s.toList.map (pyReprChar q ascii)) ++ String.mk [q]

/-- Python `str` of an int (decimal, minus sign for negatives). -/
def pyIntStr (n : Int) : String := toString n

/-- html.escape from the standard library: `&`, `<`, `>` always; `"` and
the apostrophe additionally when `quote` is true. -/
def escapeChar (quote : Bool) (c : Char) : String :=
  if c = '&' then "&amp;"
  else if c = '<' then "&lt;"
  else if c = '>' then "&gt;"
  else if quote && c = dquoteChar then "&quot;"
  else if quote && c = squoteChar then "&#x27;"
  else String.mk [c]

/-- html.escape(s, quote). -/
def escape (s : String) (quote : Bool) : String :=
  String.join (s.toList.map (escapeChar quote))

/-- pep/web.py `_render_str_attribute`: a key with its escaped, quoted value. -/
def renderStrAttribute (key : String) (value : String) : String :=
  key ++ "=" ++ String.mk [dquoteChar] ++ escape value true ++ String.mk [dquoteChar]

/-- pep/web.py `_render_none_attribute`: just the bare key. -/
def renderNoneAttribute (key : String) : String := key

/-- pep/web.py `_render_attribute`: `isinstance(value, str)` selects the
quoted form; every other value (None, True, False, ...) falls through to
the bare-key form. -/
def renderAttribute (key : String) (value : Val) : String :=
  match value with
  | .str s => renderStrAttribute key s
  | _ => renderNoneAttribute key

/-- Python `sep.join(parts)`. -/
def pyJoin (sep : String) : List String → String
  | [] => ""
  | [x] => x
  | x :: y :: rest => x ++ sep ++ pyJoin sep (y :: rest)

/-- pep/web.py `_render_attributes_mapping`: every entry rendered, joined
with single spaces. -/
def renderAttributesMapping (mapping : List (String × Val)) : String :=
  pyJoin " " (mapping.map (fun kv => renderAttribute kv.1 kv.2))

mutual

/-- Python `repr` of a `Val` (fuel-indexed; `ascii` selects `ascii()`).
`repr` of a function or of the repository's classes would expose object
addresses; those cases are unreachable from every theorem below and are
rendered with fixed placeholders. -/
def pyReprF (ascii : Bool) : Nat → Val → String
  | 0, _ => ""
  | _ + 1, .str s => pyReprStr ascii s
  | _ + 1, .int n => pyIntStr n
  | _ + 1, .bool b => if b then "True" else "False"
  | _ + 1, .none => "None"
  | fuel + 1, .list xs => "[" ++ ", ".intercalate (pyReprListF ascii fuel xs) ++ "]"
  | fuel + 1, .dict es => "\x7b" ++ ", ".intercalate (pyReprDictF ascii fuel es) ++ "\x7d"
  | _ + 1, .func _ => "<function>"
  | _ + 1, .comp _ => "<function>"
  | _ + 1, .elem _ => "<Element>"
  | _ + 1, .templ _ => "<Template>"

def pyReprListF (ascii : Bool) : Nat → List Val → List String
  | _, [] => []
  | 0, _ :: _ => []
  | fuel + 1, v :: rest => pyReprF ascii fuel v :: pyReprListF ascii fuel rest

def pyReprDictF (ascii : Bool) : Nat → List (String × Val) → List String
  | _, [] => []
  | 0, _ :: _ => []
  | fuel + 1, (k, v) :: rest =>
      (pyReprStr ascii k ++ ": " ++ pyReprF ascii fuel v) :: pyReprDictF ascii fuel rest

end

mutual

/-- Python `str` of a `Val` (fuel-indexed).  Containers fall back to their
`repr`; `str` of an `Element` is its HTML serialization (`Element.__str__`). -/
def pyStrF : Nat → Val → String
  | 0, _ => ""
  | _ + 1, .str s => s
  | _ + 1, .int n => pyIntStr n
  | _ + 1, .bool b => if b then "True" else "False"
  | _ + 1, .none => "None"
  | fuel + 1, .list xs => "[" ++ ", ".intercalate (pyReprListF false fuel xs) ++ "]"
  | fuel + 1, .dict es => "\x7b" ++ ", ".intercalate (pyReprDictF false fuel es) ++ "\x7d"
  | _ + 1, .func _ => "<function>"
  | _ + 1, .comp _ => "<function>"
  | fuel + 1, .elem e => elementStrF fuel e
  | _ + 1, .templ _ => "<Template>"

/-- pep/web.py `Element.__str__` (fuel-indexed): fragments render their
children bare; childless elements self-close; otherwise an open tag,
children, close tag; attributes joined by `_render_attributes_mapping`. -/
def elementStrF : Nat → Element → String
  | 0, _ => ""
  | fuel + 1, .mk tag attrs children =>
    if tag = "" then renderChildrenF fuel children
    else
      let attributesStr := renderAttributesMapping attrs
      if children.isEmpty then
        if attributesStr ≠ "" then "<" ++ tag ++ " " ++ attributesStr ++ " />"
        else "<" ++ tag ++ " />"
      else
        let childrenStr := renderChildrenF fuel children
        if attributesStr ≠ "" then
          "<" ++ tag ++ " " ++ attributesStr ++ ">" ++ childrenStr ++ "</" ++ tag ++ ">"
        else "<" ++ tag ++ ">" ++ childrenStr ++ "</" ++ tag ++ ">"

/-- pep/web.py `_render_children` (fuel-indexed): nested elements are
serialized without re-escaping, text children are content-escaped. -/
def renderChildrenF : Nat → List (String ⊕ Element) → String
  | _, [] => ""
  | 0, _ :: _ => ""
  | fuel + 1, .inl s :: rest => escape s false ++ renderChildrenF fuel rest
  | fuel + 1, .inr e :: rest => elementStrF fuel e ++ renderChildrenF fuel rest

end

/-- Python `repr(v)`. -/
def pyRepr (v : Val) : String := pyReprF false (valSize v + 1) v

/-- Python `ascii(v)`. -/
def pyAscii (v : Val) : String := pyReprF true (valSize v + 1) v

/-- Python `str(v)`. -/
def pyStr (v : Val) : String := pyStrF (valSize v + 1) v

/-- pep/web.py `str(element)`. -/
def elementStr (e : Element) : String := elementStrF (elementSize e + 1) e

/-- pep/fstring.py `convert`: apply the `"a"` / `"r"` / `"s"` conversion,
or pass the value through unchanged (including for unrecognized tags — the
source's if-chain falls through to `return value`). -/
def convert (value : Val) (conv : Option String) : Val :=
  if conv = some "a" then .str (pyAscii value)
  else if conv = some "r" then .str (pyRepr value)
  else if conv = some "s" then .str (pyStr value)
  else value

/-- Left-pad with spaces to the given width. -/
def padLeft (s : String) (w : Nat) : String :=
  String.mk (List.replicate (w - s.length) ' ') ++ s

/-- Right-pad with spaces to the given width. -/
def padRight (s : String) (w : Nat) : String :=
  s ++ String.mk (List.replicate (w - s.length) ' ')

/-- Modelled from the spec: the generic formatting routine (`format`
builtin) is an external collaborator, specified only at the level of its
output contract.  We model the documented identity `format(v, "") ==
str(v)`, plain width specs for strings (left-aligned) and integers
(right-aligned), and report every other spec as a formatting error. -/
def pyFormat (value : Val) (spec : String) : Except PyErr String :=
  if spec = "" then .ok (pyStr value)
  else if spec.length > 0 ∧ spec.toList.all Char.isDigit then
    let w := spec.toList.foldl (fun acc c => acc * 10 + (c.toNat - 48)) 0
    match value with
    | .str s => .ok (padRight s w)
    | .int n => .ok (padLeft (pyIntStr n) w)
    | .bool b => .ok (padLeft (if b then "1" else "0") w)
    | _ => .error (.typeError "unsupported format string passed to the value")
  else .error (.valueError "Invalid format specifier")

/-- pep/fstring.py `f`, the per-part loop: literals are kept verbatim; an
interpolation's value is converted then formatted.  Errors (from an
invalid spec) propagate at the first failing part. -/
def fList : List TPart → Except PyErr (List String)
  | [] => .ok []
  | .lit s :: rest => do
      let r ← fList rest
      return s :: r
  | .interp i :: rest => do
      let value := convert i.value i.conv
      let value ← pyFormat value i.format_spec
      let r ← fList rest
      return value :: r

/-- pep/fstring.py `f`: render a Template exactly as the f-string would. -/
def f (template : Template) : Except PyErr String := do
  let parts ← fList template.args
  return String.join parts

/-- Python `"".join(parts)`: every part must be a `str`, else TypeError. -/
def joinVals : List Val → Except PyErr String
  | [] => .ok ""
  | .str s :: rest => do
      let r ← joinVals rest
      return s ++ r
  | _ :: _ => .error (.typeError "sequence item: expected str instance")

/-- pep/lazy.py `format_some`, the per-part loop.  (`string.templatelib`
iteration omits empty literal strings; an empty string contributes nothing
to the join, so iterating all parts is observationally identical.) -/
def formatSomeList (selector : String) (ignored : String) : List TPart → List Val
  | [] => []
  | .lit s :: rest => .str s :: formatSomeList selector ignored rest
  | .interp i :: rest =>
      (if i.format_spec = selector then
        let value := i.value
        let value := match value with
          | .func fn => fn ()
          | v => v
        convert value i.conv
      else .str ignored) :: formatSomeList selector ignored rest

/-- pep/lazy.py `format_some` (the `ignored` parameter defaults to
`"***"` in the source). -/
def formatSome (selector : String) (template : Template) (ignored : String) :
    Except PyErr String :=
  joinVals (formatSomeList selector ignored template.args)

/-- Python dict lookup on a string-keyed mapping (first binding wins, as
in a dict built from keyword arguments, which cannot repeat keys). -/
def pyDictGet (key : String) (kwargs : List (String × Val)) : Option Val :=
  (kwargs.find? (fun kv => kv.1 = key)).map (·.2)

/-- pep/reuse.py `Binder`: holds the validated template. -/
structure Binder where
  template : Template

/-- The `Binder.__init__` validation loop: every interpolation value must
be a `str`, else `ValueError(f"Non-string interpolation: {value}")`. -/
def checkStringInterps : List TPart → Except PyErr Unit
  | [] => .ok ()
  | .lit _ :: rest => checkStringInterps rest
  | .interp i :: rest =>
      match i.value with
      | .str _ => checkStringInterps rest
      | v => .error (.valueError ("Non-string interpolation: " ++ pyStr v))

/-- pep/reuse.py `Binder.__init__`. -/
def Binder.init (template : Template) : Except PyErr Binder := do
  checkStringInterps template.args
  return ⟨template⟩

/-- pep/reuse.py `Binder.bind`, the per-part loop: literals pass through;
an interpolation's (string) value names the keyword argument to resolve;
the replacement interpolation carries the resolved value, the expression
`repr(name)[1:-1]`, and the original conversion and format spec. -/
def bindList (kwargs : List (String × Val)) : List TPart → Except PyErr (List TPart)
  | [] => .ok []
  | .lit s :: rest => do
      let r ← bindList kwargs rest
      return .lit s :: r
  | .interp i :: rest =>
      match i.value with
      | .str name =>
        match pyDictGet name kwargs with
        | Option.none => .error (.keyError name)
        | some value => do
            let expr := ((pyReprStr false name).drop 1).dropRight 1
            let r ← bindList kwargs rest
            return .interp (.mk value expr i.conv i.format_spec) :: r
      | _ => .error .assertionError

/-- pep/reuse.py `Binder.bind`. -/
def Binder.bind (b : Binder) (kwargs : List (String × Val)) : Except PyErr Template := do
  let args ← bindList kwargs b.template.args
  return Template.mk args

/-- The older cpython `Interpolation` received by `t` in pep/__init__.py:
a `getvalue` thunk, the expression text, and possibly-misassigned `conv`
and `format_spec` attributes (see the workaround comment in the source). -/
structure OldInterpolation where
  getvalue : Unit → Val
  expr : String
  conv : Option String
  format_spec : Option String

/-- The body of `t`'s per-argument loop in pep/__init__.py, as a fold
step over the state `(eo_args, last_was_str)`: a missing literal before an
interpolation is synthesized as `""`; the conv/format_spec workaround
reclassifies a `conv` outside `{a, r, s}` as the format spec. -/
def tStep (st : List TPart × Bool) (arg : String ⊕ OldInterpolation) :
    List TPart × Bool :=
  match arg with
  | .inl s => (st.1 ++ [.lit s], true)
  | .inr a =>
    let pre := if st.2 then st.1 else st.1 ++ [.lit ""]
    let cf : Option String × String :=
      match a.conv with
      | some c =>
          if c = "a" ∨ c = "r" ∨ c = "s" then (some c, a.format_spec.getD "")
          else (Option.none, c)
      | Option.none => (Option.none, "")
    (pre ++ [.interp (.mk (a.getvalue ()) a.expr cf.1 cf.2)], false)

/-- pep/__init__.py `t`: fold the loop, synthesize a trailing `""` when
the last part was not a literal, and run the two `assert` statements
(modelled as AssertionError on failure) before constructing the Template. -/
def t (args : List (String ⊕ OldInterpolation)) : Except PyErr Template :=
  let st := args.foldl tStep ([], false)
  let eo := if st.2 then st.1 else st.1 ++ [.lit ""]
  if eo.length ≥ 1 then
    if eo.length % 2 = 1 then .ok (Template.mk eo) else .error .assertionError
  else .error .assertionError

/-- Alternation state of a parts list: starting from expectation `b`
(`true` = a literal is expected next, `false` = an interpolation is),
return the expectation left after consuming the list, or `Option.none`
when strict alternation is violated. -/
def altState : Bool → List TPart → Option Bool
  | b, [] => some b
  | true, .lit _ :: rest => altState false rest
  | false, .interp _ :: rest => altState true rest
  | _, _ :: _ => Option.none

/-- The canonical shape PEP 750 templates must have: the parts strictly
alternate starting with a literal and end having just consumed a literal
(so the list is non-empty, begins and ends with a literal, and has odd
length). -/
def goodShape (l : List TPart) : Bool := altState true l == some false

/-- Does the list start with a literal part? -/
def headIsLit (l : List TPart) : Bool :=
  match l with
  | .lit _ :: _ => true
  | _ => false

/-- Does the list end with a literal part? -/
def lastIsLit (l : List TPart) : Bool :=
  match l.getLast? with
  | some (.lit _) => true
  | _ => false

/-- `true` when no two literal strings are adjacent in a `t` argument
list (`prev` records whether the previous argument was a string).  The
tagged-string machinery never passes two adjacent literal segments. -/
def noAdjStr : Bool → List (String ⊕ OldInterpolation) → Bool
  | _, [] => true
  | prev, .inl _ :: rest => !prev && noAdjStr true rest
  | _, .inr _ :: rest => noAdjStr false rest

/-- Pointwise agreement of template parts relative to a selector:
literals must be equal, interpolations must share `format_spec` and
`conv`, while values must agree only on selected interpolations. -/
def SelAgreePart (sel : String) : TPart → TPart → Prop
  | .lit s, .lit s2 => s = s2
  | .interp i, .interp i2 =>
      i.format_spec = i2.format_spec ∧ i.conv = i2.conv ∧
        (i.format_spec = sel → i.value = i2.value)
  | _, _ => False

/-- Two templates that agree on everything `format_some` may inspect for
the given selector; the values behind unselected interpolations are
unconstrained. -/
def SelAgree (sel : String) (t1 t2 : Template) : Prop :=
  List.Forall₂ (SelAgreePart sel) t1.args t2.args

/-- Relation between an original `Binder` template part and the
corresponding part of the bound template: literals are unchanged; an
interpolation's (string) value names the keyword argument that becomes
the new value, the new expression is `repr(name)[1:-1]`, and conversion
and format spec are carried over. -/
def BoundPart (kwargs : List (String × Val)) : TPart → TPart → Prop
  | .lit s, .lit s2 => s2 = s
  | .interp i, .interp i2 => ∃ name,
      i.value = .str name ∧
      pyDictGet name kwargs = some i2.value ∧
      i2.expr = ((pyReprStr false name).drop 1).dropRight 1 ∧
      i2.conv = i.conv ∧ i2.format_spec = i.format_spec
  | _, _ => False

/-- The ASCII opening-brace character (written via its code so that no
brace appears inside a character literal). -/
def obraceChar : Char := Char.ofNat 123

/-- The ASCII closing-brace character. -/
def cbraceChar : Char := Char.ofNat 125

/-- Does the string start with the given character?  (Python
`str.startswith` with a one-character argument.) -/
def strStartsWithChar (c : Char) (s : String) : Bool :=
  match s.toList with
  | c2 :: _ => c2 = c
  | [] => false

/-- Does the string end with the given character?  (Python `str.endswith`
with a one-character argument.) -/
def strEndsWithChar (c : Char) (s : String) : Bool :=
  match s.toList.getLast? with
  | some c2 => c2 = c
  | _ => false

/-- Python `str.isdigit`, restricted to ASCII digits (the repository only
ever feeds ASCII format strings). -/
def pyIsDigit (s : String) : Bool :=
  !s.toList.isEmpty && s.toList.all Char.isDigit

/-- Python `int(s)` for a digit string (guarded by `pyIsDigit` at every
use site, as in the source). -/
def digitsToNat (s : String) : Nat :=
  s.toList.foldl (fun acc c => acc * 10 + (c.toNat - 48)) 0

/-- Python `s.split("!", maxsplit=1)[-1]`: everything after the first
`!`, or the whole string when there is none (guarded by containment at
the use site). -/
def afterFirstBang : List Char → List Char
  | [] => []
  | c :: rest => if c = '!' then rest else afterFirstBang rest

/-- One raw match of the field regex in pep/format.py
`_parse_fmt_string`: the key text (group 2), the one-character conversion
(group 3, absent when the `!` part is missing) and the format spec text
(group 4, absent when the `:` part is missing). -/
structure RawField where
  key : String
  conv : Option String
  spec : Option String
deriving Repr, DecidableEq

/-- A static string or a field, as produced by scanning the format string
with `re.finditer` (static text between matches and the `(.*?)` group are
separate appends in the source loop). -/
inductive RawItem where
  | lit (s : String)
  | field (f : RawField)
deriving Repr, DecidableEq

/-- Split a character list at the first brace (either kind): the maximal
brace-free lazy prefix and the rest. -/
def spanNonBrace : List Char → List Char × List Char
  | [] => ([], [])
  | c :: rest =>
    if c = obraceChar ∨ c = cbraceChar then ([], c :: rest)
    else
      let p := spanNonBrace rest
      (c :: p.1, p.2)

/-- The spec group of the field regex — a greedy repetition of a
non-brace character or a complete one-level brace block — followed by the
field's closing brace; returns the spec text and the input remaining
after the closing brace.  Fuel-indexed (each step consumes at least one
character, so any fuel exceeding the input length is sufficient). -/
def parseSpecF : Nat → List Char → Option (List Char × List Char)
  | 0, _ => Option.none
  | _ + 1, [] => Option.none
  | fuel + 1, c :: rest =>
    if c = cbraceChar then some ([], rest)
    else if c = obraceChar then
      match spanNonBrace rest with
      | (inner, c2 :: rest2) =>
        if c2 = cbraceChar then
          match parseSpecF fuel rest2 with
          | some (sp, rem) => some (c :: (inner ++ c2 :: sp), rem)
          | Option.none => Option.none
        else Option.none
      | (_, []) => Option.none
    else
      match parseSpecF fuel rest with
      | some (sp, rem) => some (c :: sp, rem)
      | Option.none => Option.none

/-- The optional `:(spec)` group followed by the field's closing brace:
either an immediate closing brace (no spec group) or `:` followed by the
spec group and the closing brace. -/
def trySpecClose (fuel : Nat) (cs : List Char) :
    Option (Option (List Char) × List Char) :=
  match cs with
  | c :: rest =>
    if c = cbraceChar then some (Option.none, rest)
    else if c = ':' then
      match parseSpecF fuel rest with
      | some (sp, rem) => some (some sp, rem)
      | Option.none => Option.none
    else Option.none
  | [] => Option.none

/-- The optional greedy `!([sra])` group — tried with the conversion
first, falling back to no conversion — followed by the optional spec
group and the closing brace. -/
def tryTail (fuel : Nat) (cs : List Char) :
    Option (Option Char × Option (List Char) × List Char) :=
  (match cs with
   | '!' :: c :: rest =>
     if c = 's' ∨ c = 'r' ∨ c = 'a' then
       match trySpecClose fuel rest with
       | some (sp, rem) => some (some c, sp, rem)
       | Option.none => Option.none
     else Option.none
   | _ => Option.none).orElse (fun _ =>
     match trySpecClose fuel cs with
     | some (sp, rem) => some (Option.none, sp, rem)
     | Option.none => Option.none)

/-- The lazily matched key group `([^...]*?)` of the field regex: at each
position first try to finish the field (`tryTail`), extending the key by
one non-brace character otherwise (the regex engine extends a lazy group
only when the rest of the pattern fails). -/
def tryKey (fuel : Nat) (acc : List Char) : List Char →
    Option (List Char × Option Char × Option (List Char) × List Char)
  | [] => (tryTail fuel []).map (fun r => (acc.reverse, r))
  | c :: rest =>
    match tryTail fuel (c :: rest) with
    | some (cv, sp, rem) => some (acc.reverse, cv, sp, rem)
    | Option.none =>
      if c = obraceChar ∨ c = cbraceChar then Option.none
      else tryKey fuel (c :: acc) rest

/-- Match the body of one field (the input after its opening brace)
exactly as the field regex does: lazy key, greedy optional conversion,
optional spec, closing brace.  Returns the groups and the remaining
input. -/
def matchFieldBody (cs : List Char) : Option (RawField × List Char) :=
  match tryKey (cs.length + 1) [] cs with
  | some (k, cv, sp, rem) =>
      some (RawField.mk (String.mk k) (cv.map (fun c => String.mk [c]))
        (sp.map String.mk), rem)
  | Option.none => Option.none

/-- Scan for the first position where an opening brace begins a complete
field match; return the text before it (the inter-match text), the parsed
field and the remaining input.  This is `re.finditer`'s leftmost-match
rule for the field pattern: a match is reported at the earliest brace
from which the rest of the pattern succeeds, every earlier character
being absorbed by the lazy `(.*?)` group or skipped as unmatched text. -/
def findField (pre : List Char) : List Char → Option (List Char × RawField × List Char)
  | [] => Option.none
  | c :: rest =>
    if c = obraceChar then
      match matchFieldBody rest with
      | some (fld, rem) => some (pre.reverse, fld, rem)
      | Option.none => findField (c :: pre) rest
    else findField (c :: pre) rest

/-- Distribute the inter-match text into the loop's two appends: `.` in
the `(.*?)` group does not match a newline, so a match can start no
earlier than the character after the last newline before its field — the
text up to and including that newline is the unmatched gap
(`fmt[pos:start]`, appended when non-empty because `pos < start`), the
rest is the static group (group 1, appended when non-empty). -/
def splitStatic (pre : List Char) : List RawItem :=
  if pre.contains '\n' then
    let statLen := (pre.reverse.takeWhile (fun c => c ≠ '\n')).length
    let gap := pre.take (pre.length - statLen)
    let stat := pre.drop (pre.length - statLen)
    RawItem.lit (String.mk gap) ::
      (if stat.isEmpty then [] else [RawItem.lit (String.mk stat)])
  else if pre.isEmpty then [] else [RawItem.lit (String.mk pre)]

/-- The `re.finditer` scan of pep/format.py `_parse_fmt_string`: all
static runs and fields in order, with the trailing static text appended
after the last match.  Fuel-indexed (each match consumes at least the
field's two braces, so any fuel exceeding the input length is
sufficient). -/
def rawScanF : Nat → List Char → List RawItem
  | 0, _ => []
  | fuel + 1, cs =>
    match findField [] cs with
    | some (pre, fld, rem) =>
        splitStatic pre ++ (RawItem.field fld :: rawScanF fuel rem)
    | Option.none => if cs.isEmpty then [] else [RawItem.lit (String.mk cs)]

/-- The raw items of a format string. -/
def rawScan (fmt : String) : List RawItem :=
  rawScanF (fmt.length + 1) fmt.toList

/-- The two numbering modes of `_parse_fmt_string`. -/
inductive NumMode where
  | auto
  | manual
deriving Repr, DecidableEq

/-- The message `_parse_fmt_string` raises for an illegal numbering-mode
switch — the source uses this same text in both directions. -/
def autoManualMsg : String :=
  "cannot switch from automatic field numbering to manual field specification"

/-- One element of `_parse_fmt_string`'s result: a static string or the
tuple `(index, key, format_spec, conversion)`. -/
inductive PItem where
  | lit (s : String)
  | interp (index : Option Nat) (key : Option String) (format_spec : String)
      (conversion : Option String)
deriving Repr, DecidableEq

/-- The per-field part of `_parse_fmt_string`'s loop body, in source
order: normalize and validate the conversion (the regex only ever yields
`s`/`r`/`a`, so the explicit check cannot fire), reject a non-empty
format spec that both starts and ends with a brace
(`NotImplementedError`), reject `!` in the key (an invalid conversion
that the regex folded into the key), then classify the key — empty key:
automatic numbering; digits: manual numbering; otherwise a keyword — and
enforce that the numbering mode never switches, raising the *same*
message for both directions.  State: `(current_index, numbering_mode)`. -/
def processField (st : Nat × Option NumMode) (fld : RawField) :
    Except PyErr (PItem × (Nat × Option NumMode)) :=
  let conversion_spec : Option String :=
    match fld.conv with
    | some c => if c = "" then Option.none else some c
    | Option.none => Option.none
  if conversion_spec = Option.none ∨ conversion_spec = some "a" ∨
      conversion_spec = some "r" ∨ conversion_spec = some "s" then
    let format_spec := fld.spec.getD ""
    if format_spec ≠ "" ∧ strStartsWithChar obraceChar format_spec ∧
        strEndsWithChar cbraceChar format_spec then
      .error (.notImplementedError "Format spec interpolations are not supported")
    else if fld.key.toList.contains '!' then
      .error (.valueError ("Unknown conversion specifier: "
        ++ String.mk (afterFirstBang fld.key.toList)))
    else if fld.key = "" then
      if st.2 = some NumMode.manual then .error (.valueError autoManualMsg)
      else .ok (PItem.interp (some st.1) Option.none format_spec conversion_spec,
        (st.1 + 1, some NumMode.auto))
    else if pyIsDigit fld.key then
      if st.2 = some NumMode.auto then .error (.valueError autoManualMsg)
      else .ok (PItem.interp (some (digitsToNat fld.key)) Option.none format_spec
          conversion_spec,
        (st.1, some NumMode.manual))
    else
      .ok (PItem.interp Option.none (some fld.key) format_spec conversion_spec, st)
  else
    .error (.valueError ("Unknown conversion specifier: "
      ++ conversion_spec.getD ""))

/-- The loop of `_parse_fmt_string` over the scanned items. -/
def parseFmtItems : (Nat × Option NumMode) → List RawItem → Except PyErr (List PItem)
  | _, [] => .ok []
  | st, RawItem.lit s :: rest => do
      let r ← parseFmtItems st rest
      return PItem.lit s :: r
  | st, RawItem.field fld :: rest => do
      let is2 ← processField st fld
      let r ← parseFmtItems is2.2 rest
      return is2.1 :: r

/-- pep/format.py `_parse_fmt_string`. -/
def parseFmtString (fmt : String) : Except PyErr (List PItem) :=
  parseFmtItems (0, Option.none) (rawScan fmt)

/-- pep/format.py `make_template`, the per-item loop: static strings pass
through; an indexed field resolves against the positional arguments
(IndexError when out of range, expression `args[i]`), a keyword field
against the keyword arguments (KeyError when missing, expression
`kwargs[repr(key)]`); the parsed conversion and format spec are attached
unchanged. -/
def makeTemplateList (args : List Val) (kwargs : List (String × Val)) :
    List PItem → Except PyErr (List TPart)
  | [] => .ok []
  | PItem.lit s :: rest => do
      let r ← makeTemplateList args kwargs rest
      return TPart.lit s :: r
  | PItem.interp index key format_spec conversion_spec :: rest =>
    match index with
    | some i =>
      match key with
      | some _ => .error .assertionError
      | Option.none =>
        if h : i < args.length then do
          let value := args.get ⟨i, h⟩
          let expression := "args[" ++ toString i ++ "]"
          let r ← makeTemplateList args kwargs rest
          return TPart.interp (.mk value expression conversion_spec format_spec) :: r
        else
          .error (.indexError ("Replacement index " ++ toString i
            ++ " out of range for positional args tuple"))
    | Option.none =>
      match key with
      | Option.none => .error .assertionError
      | some k =>
        match pyDictGet k kwargs with
        | Option.none => .error (.keyError k)
        | some value => do
          let expression := "kwargs[" ++ pyReprStr false k ++ "]"
          let r ← makeTemplateList args kwargs rest
          return TPart.interp (.mk value expression conversion_spec format_spec) :: r

/-- pep/format.py `make_template`. -/
def makeTemplate (fmt : String) (args : List Val)
    (kwargs : List (String × Val)) : Except PyErr Template := do
  let items ← parseFmtString fmt
  let targs ← makeTemplateList args kwargs items
  return Template.mk targs

/-- A token of a syntactically well-formed format-spec text: a plain
non-brace character or a complete one-level brace block (this is exactly
what the spec group of the field regex accepts). -/
inductive SpecTok where
  | chr (c : Char)
  | block (inner : List Char)
deriving Repr, DecidableEq

/-- Well-formedness of one spec token. -/
def specTokOK : SpecTok → Bool
  | .chr c => c ≠ obraceChar ∧ c ≠ cbraceChar
  | .block inner => inner.all (fun c => c ≠ obraceChar ∧ c ≠ cbraceChar)

/-- Is the token a plain character (no embedded brace block)? -/
def specTokIsChr : SpecTok → Bool
  | .chr _ => true
  | .block _ => false

/-- The concrete text of one spec token. -/
def specTokText : SpecTok → List Char
  | .chr c => [c]
  | .block inner => obraceChar :: (inner ++ [cbraceChar])

/-- The concrete text of a spec token list. -/
def specToksText (toks : List SpecTok) : List Char :=
  (toks.map specTokText).flatten

/-- A character that the lazy key group will actually keep: not a brace
(the class excludes braces) and not `!` or `:` (at which the regex can
leave the lazy group and match the rest of the field). -/
def KeyCharOK (c : Char) : Bool :=
  c ≠ obraceChar ∧ c ≠ cbraceChar ∧ c ≠ '!' ∧ c ≠ ':'

/-- A key text the field regex maps to the key group unchanged. -/
def KeyOK (k : String) : Bool := k.toList.all KeyCharOK

/-- An abstract field of a format string: key text, optional conversion
character and optional spec-token list. -/
structure FieldD where
  key : String
  cv : Option Char
  sp : Option (List SpecTok)

/-- The text of the field after its key: optional `!c`, optional
`:spec`, and the closing brace. -/
def fieldTailText (cv : Option Char) (sp : Option (List SpecTok)) : List Char :=
  (match cv with
   | some c => ['!', c]
   | Option.none => []) ++
  (match sp with
   | some toks => ':' :: specToksText toks
   | Option.none => []) ++ [cbraceChar]

/-- The full text of a field. -/
def fieldDText (f : FieldD) : List Char :=
  obraceChar :: (f.key.toList ++ fieldTailText f.cv f.sp)

/-- The `RawField` the regex recovers from a well-formed field text. -/
def rawFieldOf (f : FieldD) : RawField :=
  RawField.mk f.key (f.cv.map (fun c => String.mk [c]))
    (f.sp.map (fun toks => String.mk (specToksText toks)))

/-- A format string assembled from `n+1` static runs interleaved with `n`
fields (empty when the lengths do not line up). -/
def mkFmtText : List String → List FieldD → List Char
  | [s], [] => s.toList
  | s :: ss, f :: fs => s.toList ++ (fieldDText f ++ mkFmtText ss fs)
  | _, _ => []

/-- A valid conversion character. -/
def convOK : Option Char → Prop
  | some c => c = 's' ∨ c = 'r' ∨ c = 'a'
  | Option.none => True

/-- Which numbering mode a field engages: automatic for the empty key,
manual for an all-digits key, none for a keyword. -/
def fieldMode (f : FieldD) : Option NumMode :=
  if f.key = "" then some NumMode.auto
  else if pyIsDigit f.key then some NumMode.manual
  else Option.none

/-- The numbering modes engaged by a field list, in order. -/
def modesOf (fs : List FieldD) : List NumMode := fs.filterMap fieldMode

/-- A static run that cannot start a field: free of opening braces. -/
def StaticOK (s : String) : Bool := s.toList.all (fun c => c ≠ obraceChar)

/-- A field whose only possible parse-time error is the numbering-mode
check: well-formed key with no `!`, a valid conversion, and a (possibly
absent) brace-free spec. -/
def plainField (f : FieldD) : Prop :=
  KeyOK f.key = true ∧ convOK f.cv ∧
    ∀ toks, f.sp = some toks →
      toks.all (fun tk => specTokOK tk && specTokIsChr tk) = true

/-- Is the raw item a static string? -/
def isLitItem : RawItem → Bool
  | .lit _ => true
  | .field _ => false

-- ===================================================================
-- pep/web.py: the HTML templating engine
-- ===================================================================

/-- Characters Python `str.strip()` and `\s` treat as whitespace
(space, tab, newline, carriage return, vertical tab, form feed). -/
def isPySpace (c : Char) : Bool :=
  c = ' ' || c = Char.ofNat 9 || c = Char.ofNat 10 || c = Char.ofNat 13
    || c = Char.ofNat 11 || c = Char.ofNat 12

/-- Python `str.strip()`: whitespace removed from both ends. -/
def pyStrip (s : String) : String :=
  String.mk (((s.toList.dropWhile isPySpace).reverse.dropWhile isPySpace).reverse)

/-- ASCII lowercasing of one character. -/
def lowerChar (c : Char) : Char :=
  if 65 ≤ c.toNat ∧ c.toNat ≤ 90 then Char.ofNat (c.toNat + 32) else c

/-- ASCII lowercasing of a character list. -/
def lowerList (cs : List Char) : List Char := cs.map lowerChar

/-- Python dict insertion: an existing key keeps its position but takes
the new value; a new key is appended. -/
def dictInsert (es : List (String × Val)) (k : String) (v : Val) :
    List (String × Val) :=
  match es with
  | [] => [(k, v)]
  | (k2, v2) :: rest =>
    if k2 = k then (k2, v) :: rest else (k2, v2) :: dictInsert rest k v

/-- The dict comprehension `\x7bkey: value for key, value in attrs\x7d`. -/
def dictOfPairs (attrs : List (String × Val)) : List (String × Val) :=
  attrs.foldl (fun es kv => dictInsert es kv.1 kv.2) []

/-- Python `repr(type(v))`, as interpolated into the engine's error
messages (`f"... \x7btype(value)\x7d"`). -/
def pyTypeName (v : Val) : String :=
  let nm : String := match v with
    | .str _ => "str"
    | .int _ => "int"
    | .bool _ => "bool"
    | .none => "NoneType"
    | .list _ => "list"
    | .dict _ => "dict"
    | .func _ => "function"
    | .comp _ => "function"
    | .elem _ => "pep.web.Element"
    | .templ _ => "pep.Template"
  "<class " ++ String.mk [squoteChar] ++ nm ++ String.mk [squoteChar] ++ ">"

/-- pep/web.py `Element.append`: a copy with the child added at the end. -/
def Element.push (e : Element) (child : String ⊕ Element) : Element :=
  match e with
  | .mk tag attrs children => .mk tag attrs (children ++ [child])

/-- The mutable state of pep/web.py `HTMLTemplateParser`: the standard
library parser's unconsumed input buffer (`rawdata`), the finished root,
the stack of open elements (top at the head), and the `in_start_tag`
flag the subclass maintains. -/
structure HTMLTemplateParser where
  buffer : List Char
  root : Option Element
  stack : List Element
  in_start_tag : Bool

/-- The parser state `HTMLTemplateParser.__init__` builds. -/
def initParser : HTMLTemplateParser :=
  HTMLTemplateParser.mk [] Option.none [] false

/-- pep/web.py `HTMLTemplateParser.handle_starttag`: a second root is a
fatal error; otherwise the attribute pairs pass through a dict
comprehension, a childless element is pushed, and `in_start_tag` is
cleared. -/
def handleStarttag (p : HTMLTemplateParser) (tag : String)
    (attrs : List (String × Val)) : Except PyErr HTMLTemplateParser :=
  match p.root with
  | some r =>
    .error (.htmlParseError
      ("Multiple root elements (" ++ r.tag ++ " and " ++ tag ++ ")"))
  | Option.none =>
    let element := Element.mk tag (dictOfPairs attrs) []
    .ok (HTMLTemplateParser.mk p.buffer p.root (element :: p.stack) false)

/-- pep/web.py `HTMLTemplateParser.handle_endtag`: `self.stack.pop()` on
an empty stack raises `IndexError` (before any tag check); a tag mismatch
is a fatal parse error; a nonempty remaining stack receives the closed
element as a child of the new top, an empty one records it as the root. -/
def handleEndtag (p : HTMLTemplateParser) (tag : String) :
    Except PyErr HTMLTemplateParser :=
  match p.stack with
  | [] => .error (.indexError "pop from empty list")
  | element :: rest =>
    if element.tag ≠ tag then
      .error (.htmlParseError ("Unexpected end tag: " ++ tag))
    else
      match rest with
      | [] => .ok (HTMLTemplateParser.mk p.buffer (some element) [] p.in_start_tag)
      | top :: rest2 =>
        .ok (HTMLTemplateParser.mk p.buffer p.root
              (top.push (Sum.inr element) :: rest2) p.in_start_tag)

/-- pep/web.py `HTMLTemplateParser.handle_data`: the text is stripped;
an empty result is ignored; text with no open element is a fatal error;
otherwise the text becomes a child of the stack top. -/
def handleData (p : HTMLTemplateParser) (data : String) :
    Except PyErr HTMLTemplateParser :=
  let data := pyStrip data
  if data = "" then .ok p
  else
    match p.stack with
    | [] => .error (.htmlParseError ("Data outside of root element: " ++ data))
    | top :: rest =>
      .ok (HTMLTemplateParser.mk p.buffer p.root
            (top.push (Sum.inl data) :: rest) p.in_start_tag)

/-- Split a character list at the first `<` (the split point stays in the
second component). -/
def takeUntilLt : List Char → List Char × List Char
  | [] => ([], [])
  | c :: rest =>
    if c = '<' then ([], c :: rest)
    else
      let pr := takeUntilLt rest
      (c :: pr.1, pr.2)

/-- Split a character list at the first `>` (dropped); `none` when there
is no `>`. -/
def splitAtGt : List Char → Option (List Char × List Char)
  | [] => Option.none
  | c :: rest =>
    if c = '>' then some ([], rest)
    else (splitAtGt rest).map (fun pr => (c :: pr.1, pr.2))

/-- A character that can continue a tag name: anything but whitespace,
`/` and `>`. -/
def isTagNameChar (c : Char) : Bool := !(isPySpace c || c = '/' || c = '>')

/-- Modelled from the spec: the tokenizer collaborator (html.parser's
attribute scanner, outside this repository) reads `name`, `name=value`,
`name="value"` runs from the inside of a start tag; names are
lowercased, a bare name gets value `None`, quoted values run to the
matching quote, unquoted ones to the next whitespace. -/
def parseAttrsF : Nat → List Char → List (String × Val)
  | 0, _ => []
  | fuel + 1, cs =>
    let cs := cs.dropWhile isPySpace
    match cs with
    | [] => []
    | _ :: rest =>
      let namePred := fun d => !(isPySpace d || d = '=' || d = '/')
      let name := cs.takeWhile namePred
      if name = [] then parseAttrsF fuel rest
      else
        let cs2 := (cs.dropWhile namePred).dropWhile isPySpace
        match cs2 with
        | '=' :: cs3 =>
          let cs4 := cs3.dropWhile isPySpace
          match cs4 with
          | [] => (String.mk (lowerList name), Val.str "") :: []
          | q :: cs5 =>
            if q = dquoteChar ∨ q = squoteChar then
              let v := cs5.takeWhile (fun d => d ≠ q)
              (String.mk (lowerList name), Val.str (String.mk v))
                :: parseAttrsF fuel (cs5.drop (v.length + 1))
            else
              let v := cs4.takeWhile (fun d => !isPySpace d)
              (String.mk (lowerList name), Val.str (String.mk v))
                :: parseAttrsF fuel (cs4.drop v.length)
        | _ =>
          (String.mk (lowerList name), Val.none) :: parseAttrsF fuel cs2

/-- Modelled from the spec: the incremental tokenizer collaborator
(§6 of the spec; html.parser.HTMLParser, outside this repository).  It
consumes the buffer event by event: a text run up to the next `<` is a
`text` event; `</…>` is an `end_tag` event; `<` followed by a letter
opens a start tag — complete through `>` it is a `start_tag` event
(with a trailing `/` also an immediate `end_tag`, the self-closing
form), incomplete it only sets the mid-start-tag flag the engine
observes and waits for more input; a lone `<` or `</` also waits.
Tag names are lowercased.  `&`-entity decoding and declaration/comment
syntax are not modelled — no template in the repository uses them. -/
def parserFeedF : Nat → HTMLTemplateParser → Except PyErr HTMLTemplateParser
  | 0, p => .ok p
  | fuel + 1, p =>
    match p.buffer with
    | [] => .ok p
    | c :: rest =>
      if c = '<' then
        match rest with
        | [] => .ok p
        | c2 :: rest2 =>
          if c2 = '/' then
            match splitAtGt rest2 with
            | Option.none => .ok p
            | some pr => do
              let tag := String.mk (lowerList (pr.1.takeWhile isTagNameChar))
              let p2 ← handleEndtag p tag
              parserFeedF fuel (HTMLTemplateParser.mk pr.2 p2.root p2.stack
                p2.in_start_tag)
          else if c2.isAlpha then
            match splitAtGt rest with
            | Option.none =>
              .ok (HTMLTemplateParser.mk p.buffer p.root p.stack true)
            | some pr =>
              match pr.1.reverse with
              | '/' :: revBody => do
                let body := revBody.reverse
                let tag := String.mk (lowerList (body.takeWhile isTagNameChar))
                let attrs := parseAttrsF (body.length + 1)
                  (body.dropWhile isTagNameChar)
                let p2 ← handleStarttag p tag attrs
                let p3 ← handleEndtag p2 tag
                parserFeedF fuel (HTMLTemplateParser.mk pr.2 p3.root p3.stack
                  p3.in_start_tag)
              | _ => do
                let tag := String.mk (lowerList (pr.1.takeWhile isTagNameChar))
                let attrs := parseAttrsF (pr.1.length + 1)
                  (pr.1.dropWhile isTagNameChar)
                let p2 ← handleStarttag p tag attrs
                parserFeedF fuel (HTMLTemplateParser.mk pr.2 p2.root p2.stack
                  p2.in_start_tag)
          else do
            let p2 ← handleData p "<"
            parserFeedF fuel (HTMLTemplateParser.mk rest p2.root p2.stack
              p2.in_start_tag)
      else
        let pr := takeUntilLt p.buffer
        do
          let p2 ← handleData p (String.mk pr.1)
          parserFeedF fuel (HTMLTemplateParser.mk pr.2 p2.root p2.stack
            p2.in_start_tag)

/-- Modelled from the spec: `feed(chunk)` appends the chunk to the
buffer and lets the tokenizer consume as many complete events as it
can.  Every consuming step shortens the buffer, so its length bounds
the recursion. -/
def parserFeed (p : HTMLTemplateParser) (s : String) :
    Except PyErr HTMLTemplateParser :=
  let buf := p.buffer ++ s.toList
  parserFeedF (buf.length + 1)
    (HTMLTemplateParser.mk buf p.root p.stack p.in_start_tag)

/-- Modelled from the spec: `close()` consumes what it can and emits any
leftover buffered text as a final `text` event. -/
def parserClose (p : HTMLTemplateParser) : Except PyErr HTMLTemplateParser := do
  let p2 ← parserFeedF (p.buffer.length + 1) p
  match p2.buffer with
  | [] => .ok p2
  | cs => do
    let p3 ← handleData p2 (String.mk cs)
    .ok (HTMLTemplateParser.mk [] p3.root p3.stack p3.in_start_tag)

/-- pep/web.py `_process_start_tag_interpolation`: a `Mapping` renders as
an attribute run, a string is attribute-escaped and quoted, anything
else is a fatal error naming the type. -/
def processStartTagInterpolation (v : Val) : Except PyErr String :=
  match v with
  | .dict es => .ok (renderAttributesMapping es)
  | .str s =>
    .ok (String.mk [dquoteChar] ++ escape s true ++ String.mk [dquoteChar])
  | _ =>
    .error (.htmlParseError
      ("Unsupported start tag interpolation: " ++ pyTypeName v))

/-- Python `callable(value)` over the embedded value universe: the
zero-argument callables and the component references. -/
def isCallableVal : Val → Bool
  | .func _ => true
  | .comp _ => true
  | _ => false

/-- One step of the slugify in pep/web.py `_make_component_name`: each
maximal run of dashes and whitespace collapses to one dash (the flag
records whether the previous kept character closed such a run). -/
def collapseDashRuns : Bool → List Char → List Char
  | _, [] => []
  | inRun, c :: rest =>
    if c = '-' || isPySpace c then
      if inRun then collapseDashRuns true rest
      else '-' :: collapseDashRuns true rest
    else c :: collapseDashRuns false rest

/-- pep/web.py `_make_component_name`: drop every character that is not
alphanumeric, whitespace or a dash; collapse dash/whitespace runs to
single dashes; strip dashes from both ends; lowercase; wrap in
`component-…-component`. -/
def makeComponentName (expr : String) : String :=
  let kept := expr.toList.filter
    (fun c => c.isAlpha || c.isDigit || isPySpace c || c = '-')
  let collapsed := collapseDashRuns false kept
  let stripped :=
    ((collapsed.dropWhile (fun c => c = '-')).reverse.dropWhile
      (fun c => c = '-')).reverse
  "component-" ++ String.mk (lowerList stripped) ++ "-component"

/-- The component environment: how an opaque `Val.comp` reference is
applied to attributes and children.  It stands in for Python's heap of
function objects (see `Val`). -/
def CompEnv : Type :=
  Nat → List (String × Val) → List (String ⊕ Element) → Element

/-- Python dict lookup (`tag in components` / `components[tag]`). -/
def dictLookup (es : List (String × Val)) (k : String) : Option Val :=
  match es with
  | [] => Option.none
  | (k2, v) :: rest => if k2 = k then some v else dictLookup rest k

mutual

/-- pep/web.py `_invoke_components` (fuel-indexed): children are
processed first (bottom-up); an element whose tag names a registered
component is replaced by the component applied to its attributes and
processed children.  A registered `Val.comp` applies through the
environment; a registered zero-argument `Val.func` called with two
arguments is Python's TypeError. -/
def invokeComponentsF (env : CompEnv) :
    Nat → Element → List (String × Val) → Except PyErr Element
  | 0, _, _ => .error (.valueError "out of fuel")
  | fuel + 1, .mk tag attrs children, comps => do
    let children2 ← invokeChildrenF env fuel children comps
    match dictLookup comps tag with
    | some (.comp cid) => .ok (env cid attrs children2)
    | some _ =>
      .error (.typeError "component takes 0 positional arguments but 2 were given")
    | Option.none => .ok (.mk tag attrs children2)

def invokeChildrenF (env : CompEnv) :
    Nat → List (String ⊕ Element) → List (String × Val) →
    Except PyErr (List (String ⊕ Element))
  | _, [], _ => .ok []
  | 0, _ :: _, _ => .error (.valueError "out of fuel")
  | fuel + 1, child :: rest, comps => do
    let rest2 ← invokeChildrenF env fuel rest comps
    match child with
    | .inl s => .ok (.inl s :: rest2)
    | .inr e => do
      let e2 ← invokeComponentsF env fuel e comps
      .ok (.inr e2 :: rest2)

end

mutual

/-- pep/web.py `html` (fuel-indexed): feed each literal part to the
parser; serialize each interpolation according to the mid-start-tag
flag (registering callables as components along the way) and feed the
result; close the parser; no root is a fatal error; finally invoke the
registered components over the finished tree. -/
def htmlF (env : CompEnv) : Nat → Template → Except PyErr Element
  | 0, _ => .error (.valueError "out of fuel")
  | fuel + 1, .mk parts => do
    let st ← htmlPartsF env fuel initParser [] parts
    let p2 ← parserClose st.1
    match p2.root with
    | Option.none => .error (.htmlParseError "No root element")
    | some r => invokeComponentsF env (templateSize (Template.mk parts) + 1) r st.2

/-- The `for arg in template.args` loop of pep/web.py `html`,
threading the parser state and the component registry. -/
def htmlPartsF (env : CompEnv) :
    Nat → HTMLTemplateParser → List (String × Val) → List TPart →
    Except PyErr (HTMLTemplateParser × List (String × Val))
  | 0, _, _, _ => .error (.valueError "out of fuel")
  | _ + 1, p, comps, [] => .ok (p, comps)
  | fuel + 1, p, comps, .lit s :: rest => do
    let p2 ← parserFeed p s
    htmlPartsF env fuel p2 comps rest
  | fuel + 1, p, comps, .interp i :: rest =>
    if p.in_start_tag then do
      let s ← processStartTagInterpolation i.value
      let p2 ← parserFeed p s
      htmlPartsF env fuel p2 comps rest
    else
      let nm := makeComponentName i.expr
      let vc : Val × List (String × Val) :=
        if isCallableVal i.value then (Val.str nm, dictInsert comps nm i.value)
        else (i.value, comps)
      do
        let s ← processContentInterpolationF env fuel vc.1
        let p2 ← parserFeed p s
        htmlPartsF env fuel p2 vc.2 rest

/-- pep/web.py `_process_content_interpolation` (fuel-indexed): an
`Element` serializes as-is, a `Template` recurses through `html` and
serializes, a string is content-escaped, anything else is a fatal error
naming the type. -/
def processContentInterpolationF (env : CompEnv) :
    Nat → Val → Except PyErr String
  | 0, _ => .error (.valueError "out of fuel")
  | fuel + 1, v =>
    match v with
    | .elem e => .ok (elementStr e)
    | .templ tp => do
      let e ← htmlF env fuel tp
      .ok (elementStr e)
    | .str s => .ok (escape s false)
    | v =>
      .error (.htmlParseError
        ("Unsupported content interpolation: " ++ pyTypeName v))

end

/-- pep/web.py `html`, with the fuel instantiated at a bound that
dominates the part count and the sizes of nested templates. -/
def html (env : CompEnv) (tpl : Template) : Except PyErr Element :=
  htmlF env (templateSize tpl + 1) tpl

-- ===================================================================
-- Theorems
-- ===================================================================

theorem altState_append (l1 l2 : List TPart) : ∀ b : Bool,
    altState b (l1 ++ l2) = (altState b l1).bind (fun b2 => altState b2 l2) := by
  induction l1 with
  | nil => intro b; simp [altState]
  | cons p rest ih =>
    intro b
    cases p with
    | lit s => cases b <;> simp [altState, ih]
    | interp i => cases b <;> simp [altState, ih]

theorem altState_length : ∀ (l : List TPart) (b b2 : Bool),
    altState b l = some b2 → l.length % 2 = (if b = b2 then 0 else 1) := by
  intro l
  induction l with
  | nil =>
    intro b b2 h
    simp [altState] at h
    simp [h]
  | cons p rest ih =>
    intro b b2 h
    cases p with
    | lit s =>
      cases b with
      | false => simp [altState] at h
      | true =>
        have := ih false b2 (by simpa [altState] using h)
        cases b2 <;> simp_all <;> omega
    | interp i =>
      cases b with
      | true => simp [altState] at h
      | false =>
        have := ih true b2 (by simpa [altState] using h)
        cases b2 <;> simp_all <;> omega

theorem altState_shape : ∀ (l : List TPart), altState true l = some false →
    headIsLit l = true ∧ lastIsLit l = true
  | [], h => by simp [altState] at h
  | [.lit _], _ => by exact ⟨rfl, rfl⟩
  | .lit _ :: .lit _ :: _, h => by simp [altState] at h
  | .lit _ :: .interp _ :: rest, h => by
      have h2 : altState true rest = some false := by simpa [altState] using h
      have ih := altState_shape rest h2
      refine ⟨rfl, ?_⟩
      cases rest with
      | nil => simp [altState] at h2
      | cons a as => simpa [lastIsLit, List.getLast?_cons_cons] using ih.2
  | .interp _ :: _, h => by simp [altState] at h

theorem t_foldl_altState : ∀ (args : List (String ⊕ OldInterpolation))
    (eo : List TPart) (last : Bool),
    noAdjStr last args = true →
    altState true eo = some (!last) →
    altState true (args.foldl tStep (eo, last)).1
      = some (!(args.foldl tStep (eo, last)).2) := by
  intro args
  induction args with
  | nil => intro eo last _ h2; simpa using h2
  | cons arg rest ih =>
    intro eo last h1 h2
    cases arg with
    | inl s =>
      simp [noAdjStr] at h1
      obtain ⟨hlast, h1r⟩ := h1
      subst hlast
      have hstep : tStep (eo, false) (Sum.inl s) = (eo ++ [TPart.lit s], true) := rfl
      simp only [List.foldl_cons, hstep]
      apply ih _ _ h1r
      rw [altState_append]
      simp at h2
      rw [h2]
      simp [altState]
    | inr a =>
      have h1r : noAdjStr false rest = true := by simpa [noAdjStr] using h1
      cases last with
      | true =>
        have hstep : tStep (eo, true) (Sum.inr a)
            = (eo ++ [TPart.interp (.mk (a.getvalue ()) a.expr
                (match a.conv with
                 | some c => if c = "a" ∨ c = "r" ∨ c = "s" then (some c, a.format_spec.getD "")
                             else (Option.none, c)
                 | Option.none => (Option.none, "")).1
                (match a.conv with
                 | some c => if c = "a" ∨ c = "r" ∨ c = "s" then (some c, a.format_spec.getD "")
                             else (Option.none, c)
                 | Option.none => (Option.none, "")).2)], false) := rfl
        simp only [List.foldl_cons, hstep]
        apply ih _ _ h1r
        rw [altState_append]
        simp at h2
        rw [h2]
        simp [altState]
      | false =>
        have hstep : tStep (eo, false) (Sum.inr a)
            = ((eo ++ [TPart.lit ""]) ++ [TPart.interp (.mk (a.getvalue ()) a.expr
                (match a.conv with
                 | some c => if c = "a" ∨ c = "r" ∨ c = "s" then (some c, a.format_spec.getD "")
                             else (Option.none, c)
                 | Option.none => (Option.none, "")).1
                (match a.conv with
                 | some c => if c = "a" ∨ c = "r" ∨ c = "s" then (some c, a.format_spec.getD "")
                             else (Option.none, c)
                 | Option.none => (Option.none, "")).2)], false) := by
          simp [tStep]
        simp only [List.foldl_cons, hstep]
        apply ih _ _ h1r
        rw [altState_append, altState_append]
        simp at h2
        rw [h2]
        simp [altState]

/-- C1 (corrected): for every argument sequence in which no two literal
strings are adjacent (the only sequences the tagged-string machinery
produces), the `t` builder yields a Template whose parts strictly
alternate starting and ending with a literal string and have odd length,
missing literals having been synthesized as `""`.  The claim's further
assertion — that adjacent literals are concatenated into one — is false:
neither the `Template` constructor (which stores its parts verbatim) nor
`t` (whose length-parity assertion fails instead) merges adjacent
literals; see the counterexample. -/
theorem c1_t_alternation_amended :
    ∀ args : List (String ⊕ OldInterpolation), noAdjStr false args = true →
      ∃ tpl, t args = .ok tpl ∧ goodShape tpl.args = true ∧
        headIsLit tpl.args = true ∧ lastIsLit tpl.args = true ∧
        tpl.args.length % 2 = 1 := by
  intro args h
  have hinv := t_foldl_altState args [] false h (by simp [altState])
  set st := args.foldl tStep ([], false) with hst
  have hfin : altState true (if st.2 then st.1 else st.1 ++ [TPart.lit ""])
      = some false := by
    cases h2 : st.2 with
    | true => simpa [h2] using hinv
    | false =>
      rw [if_neg (by simp)]
      rw [altState_append]
      rw [h2] at hinv
      simp at hinv
      rw [hinv]
      simp [altState]
  set eo := if st.2 then st.1 else st.1 ++ [TPart.lit ""] with heo
  have hlen : eo.length % 2 = 1 := by
    have := altState_length eo true false hfin
    simpa using this
  have hge : eo.length ≥ 1 := by omega
  have hshape := altState_shape eo hfin
  refine ⟨Template.mk eo, ?_, ?_, ?_, ?_, ?_⟩
  · unfold t
    rw [← hst]
    show (if eo.length ≥ 1 then
        if eo.length % 2 = 1 then Except.ok (Template.mk eo)
        else Except.error PyErr.assertionError
      else Except.error PyErr.assertionError) = Except.ok (Template.mk eo)
    rw [if_pos hge, if_pos hlen]
  · simp [goodShape, Template.args, hfin]
  · simpa [Template.args] using hshape.1
  · simpa [Template.args] using hshape.2
  · simpa [Template.args] using hlen

/-- Witness for C1: a single old-style interpolation argument satisfies
the no-adjacent-literals hypothesis, and `t` produces a canonical
template around it. -/
theorem c1_t_alternation_amended_witness :
    noAdjStr false [Sum.inr (OldInterpolation.mk (fun _ => Val.str "v") "e"
        Option.none Option.none)] = true ∧
    ∃ tpl, t [Sum.inr (OldInterpolation.mk (fun _ => Val.str "v") "e"
        Option.none Option.none)] = .ok tpl ∧ goodShape tpl.args = true ∧
        headIsLit tpl.args = true ∧ lastIsLit tpl.args = true ∧
        tpl.args.length % 2 = 1 :=
  ⟨rfl, c1_t_alternation_amended _ rfl⟩

/-- Counterexample for C1 as stated: the `Template` constructor performs
no repair at all — passed two adjacent literals it stores them verbatim,
yielding an even-length, non-alternating parts sequence — and the `t`
builder does not concatenate adjacent literals either: it fails its
length-parity assertion. -/
theorem c1_counterexample :
    (Template.mk [TPart.lit "a", TPart.lit "b"]).args
        = [TPart.lit "a", TPart.lit "b"]
    ∧ goodShape [TPart.lit "a", TPart.lit "b"] = false
    ∧ [TPart.lit "a", TPart.lit "b"].length % 2 = 0
    ∧ t [Sum.inl "a", Sum.inl "b"] = .error PyErr.assertionError :=
  ⟨rfl, rfl, rfl, rfl⟩

theorem fList_eq_mapM (l : List TPart) :
    fList l = l.mapM (fun p =>
      match p with
      | TPart.lit s => Except.ok s
      | TPart.interp i => pyFormat (convert i.value i.conv) i.format_spec) := by
  induction l with
  | nil => rfl
  | cons p rest ih =>
    cases p with
    | lit s =>
      rw [List.mapM_cons, ← ih]
      cases h : fList rest <;> simp [fList, h] <;> rfl
    | interp i =>
      rw [List.mapM_cons, ← ih]
      cases h : pyFormat (convert i.value i.conv) i.format_spec <;>
        cases h2 : fList rest <;> simp [fList, h, h2]

/-- C2: the renderer `f` returns exactly the string obtained by walking
the parts in order — literals verbatim, each interpolation's value put
through `convert` (ascii / repr / str / identity) and then the generic
formatting routine with its `format_spec` — and on the Template with
parts `["Hello, ", Interpolation("world", "name", None, "")]` it returns
`"Hello, world"`. -/
theorem c2_renderer_f :
    (∀ tpl : Template,
      f tpl = (tpl.args.mapM (fun p =>
        match p with
        | TPart.lit s => Except.ok s
        | TPart.interp i => pyFormat (convert i.value i.conv) i.format_spec)).map
          String.join)
    ∧ f (Template.mk [TPart.lit "Hello, ",
        TPart.interp (Interpolation.mk (Val.str "world") "name" Option.none "")])
      = Except.ok "Hello, world" := by
  constructor
  · intro tpl
    show (do
        let parts ← fList tpl.args
        return String.join parts) = _
    rw [fList_eq_mapM]
    cases tpl.args.mapM (fun p =>
      match p with
      | TPart.lit s => Except.ok s
      | TPart.interp i => pyFormat (convert i.value i.conv) i.format_spec) <;> rfl
  · rfl

theorem formatSomeList_eq_map (sel ign : String) (l : List TPart) :
    formatSomeList sel ign l = l.map (fun p =>
      match p with
      | TPart.lit s => Val.str s
      | TPart.interp i =>
          if i.format_spec = sel then
            convert (match i.value with
                     | Val.func fn => fn ()
                     | v => v) i.conv
          else Val.str ign) := by
  induction l with
  | nil => rfl
  | cons p rest ih =>
    cases p with
    | lit s => simp [formatSomeList, ih]
    | interp i => simp [formatSomeList, ih]

theorem formatSomeList_congr (sel ign : String) :
    ∀ l1 l2 : List TPart, List.Forall₂ (SelAgreePart sel) l1 l2 →
      formatSomeList sel ign l1 = formatSomeList sel ign l2 := by
  intro l1 l2 h
  induction h with
  | nil => rfl
  | cons hp _ ih =>
    rename_i p1 p2 r1 r2 _
    cases p1 with
    | lit s =>
      cases p2 with
      | lit s2 =>
        have hs : s = s2 := hp
        subst hs
        simp [formatSomeList, ih]
      | interp i2 => exact absurd hp (by simp [SelAgreePart])
    | interp i =>
      cases p2 with
      | lit s2 => exact absurd hp (by simp [SelAgreePart])
      | interp i2 =>
        obtain ⟨hfs, hconv, hval⟩ := hp
        by_cases hsel : i.format_spec = sel
        · have hval2 := hval hsel
          simp [formatSomeList, hsel, hfs ▸ hsel, ← hfs, hconv, hval2, ih]
        · have hsel2 : ¬ i2.format_spec = sel := by rw [← hfs]; exact hsel
          simp [formatSomeList, hsel, hsel2, ih]

/-- C7: `format_some` renders literals verbatim; an interpolation whose
`format_spec` equals the selector has its value resolved (a callable is
invoked first) and its conversion applied, while every other
interpolation contributes the fixed placeholder string — and the output
depends only on the parts `format_some` may inspect, so the value behind
an unselected interpolation (callable or not) is never invoked nor used. -/
theorem c7_format_some_selector :
    (∀ (sel ign : String) (tpl : Template),
      formatSome sel tpl ign = joinVals (tpl.args.map (fun p =>
        match p with
        | TPart.lit s => Val.str s
        | TPart.interp i =>
            if i.format_spec = sel then
              convert (match i.value with
                       | Val.func fn => fn ()
                       | v => v) i.conv
            else Val.str ign)))
    ∧ (∀ (sel ign : String) (t1 t2 : Template), SelAgree sel t1 t2 →
        formatSome sel t1 ign = formatSome sel t2 ign) := by
  constructor
  · intro sel ign tpl
    unfold formatSome
    rw [formatSomeList_eq_map]
  · intro sel ign t1 t2 h
    unfold formatSome
    rw [formatSomeList_congr sel ign t1.args t2.args h]

/-- Witness for C7: two templates that differ only in the callable behind
the `"b"`-tagged interpolation render identically under selector `"a"`
(so the `"b"` callable is never invoked), and the selected `"a"` callable
is resolved. -/
theorem c7_format_some_selector_witness :
    SelAgree "a"
      (Template.mk [TPart.lit "x=",
        TPart.interp (Interpolation.mk (Val.func fun _ => Val.str "A") "fa" Option.none "a"),
        TPart.lit " y=",
        TPart.interp (Interpolation.mk (Val.func fun _ => Val.str "B1") "fb" Option.none "b"),
        TPart.lit ""])
      (Template.mk [TPart.lit "x=",
        TPart.interp (Interpolation.mk (Val.func fun _ => Val.str "A") "fa" Option.none "a"),
        TPart.lit " y=",
        TPart.interp (Interpolation.mk (Val.func fun _ => Val.str "B2") "fb" Option.none "b"),
        TPart.lit ""])
    ∧ formatSome "a"
        (Template.mk [TPart.lit "x=",
          TPart.interp (Interpolation.mk (Val.func fun _ => Val.str "A") "fa" Option.none "a"),
          TPart.lit " y=",
          TPart.interp (Interpolation.mk (Val.func fun _ => Val.str "B1") "fb" Option.none "b"),
          TPart.lit ""]) "***"
      = formatSome "a"
        (Template.mk [TPart.lit "x=",
          TPart.interp (Interpolation.mk (Val.func fun _ => Val.str "A") "fa" Option.none "a"),
          TPart.lit " y=",
          TPart.interp (Interpolation.mk (Val.func fun _ => Val.str "B2") "fb" Option.none "b"),
          TPart.lit ""]) "***"
    ∧ formatSome "a"
        (Template.mk [TPart.lit "x=",
          TPart.interp (Interpolation.mk (Val.func fun _ => Val.str "A") "fa" Option.none "a"),
          TPart.lit " y=",
          TPart.interp (Interpolation.mk (Val.func fun _ => Val.str "B1") "fb" Option.none "b"),
          TPart.lit ""]) "***"
      = Except.ok "x=A y=***" := by
  have hagree : SelAgree "a"
      (Template.mk [TPart.lit "x=",
        TPart.interp (Interpolation.mk (Val.func fun _ => Val.str "A") "fa" Option.none "a"),
        TPart.lit " y=",
        TPart.interp (Interpolation.mk (Val.func fun _ => Val.str "B1") "fb" Option.none "b"),
        TPart.lit ""])
      (Template.mk [TPart.lit "x=",
        TPart.interp (Interpolation.mk (Val.func fun _ => Val.str "A") "fa" Option.none "a"),
        TPart.lit " y=",
        TPart.interp (Interpolation.mk (Val.func fun _ => Val.str "B2") "fb" Option.none "b"),
        TPart.lit ""]) := by
    refine List.Forall₂.cons rfl (List.Forall₂.cons ⟨rfl, rfl, fun _ => rfl⟩
      (List.Forall₂.cons rfl (List.Forall₂.cons ⟨rfl, rfl, fun h => absurd h (by decide)⟩
      (List.Forall₂.cons rfl List.Forall₂.nil))))
  exact ⟨hagree, c7_format_some_selector.2 "a" "***" _ _ hagree, rfl⟩

set_option maxHeartbeats 2000000 in
theorem bindList_ok (kwargs : List (String × Val)) :
    ∀ l : List TPart,
      (∀ i : Interpolation, TPart.interp i ∈ l →
        ∃ name, i.value = Val.str name ∧ (pyDictGet name kwargs).isSome) →
      ∃ l2, bindList kwargs l = .ok l2 ∧
        List.Forall₂ (BoundPart kwargs) l l2 := by
  intro l
  induction l with
  | nil => intro _; exact ⟨[], rfl, List.Forall₂.nil⟩
  | cons p rest ih =>
    intro h
    have hrest := ih (fun i hi => h i (List.mem_cons_of_mem _ hi))
    obtain ⟨l2, hbind, hrel⟩ := hrest
    cases p with
    | lit s =>
      refine ⟨TPart.lit s :: l2, ?_, List.Forall₂.cons rfl hrel⟩
      simp [bindList, hbind]
    | interp i =>
      obtain ⟨name, hval, hsome⟩ := h i (List.mem_cons_self _ _)
      obtain ⟨v, hv⟩ := Option.isSome_iff_exists.mp hsome
      cases i with
      | mk iv ie ic ifs =>
        simp [Interpolation.value] at hval
        subst hval
        refine ⟨TPart.interp (Interpolation.mk v
            (((pyReprStr false name).drop 1).dropRight 1) ic ifs) :: l2,
          ?_, List.Forall₂.cons
            ⟨name, rfl, by rw [hv]; rfl, rfl, rfl, rfl⟩ hrel⟩
        have hstep : bindList kwargs
            (TPart.interp (Interpolation.mk (Val.str name) ie ic ifs) :: rest)
            = (match pyDictGet name kwargs with
               | Option.none => Except.error (PyErr.keyError name)
               | some value => do
                   let r ← bindList kwargs rest
                   return TPart.interp (Interpolation.mk value
                     (((pyReprStr false name).drop 1).dropRight 1) ic ifs) :: r) := rfl
        rw [hstep, hv, hbind]
        rfl

/-- C8 (corrected): for a `Binder` whose template's interpolation values
are all strings (the names), and a keyword mapping binding all those
names, `bind` returns a new Template whose literals are unchanged and in
which each interpolation's value is replaced by the argument resolved for
its name, with conversion and format spec carried over — but the new
expression is `repr(name)[1:-1]`, i.e. it is regenerated from the
original *name*, not from the resolved value's representation (see the
counterexample). -/
theorem c8_binder_bind_amended :
    ∀ (tpl : Template) (kwargs : List (String × Val)) (b : Binder),
      Binder.init tpl = .ok b →
      (∀ i : Interpolation, TPart.interp i ∈ tpl.args →
        ∃ name, i.value = Val.str name ∧ (pyDictGet name kwargs).isSome) →
      ∃ tpl2, b.bind kwargs = .ok tpl2 ∧
        List.Forall₂ (BoundPart kwargs) tpl.args tpl2.args := by
  intro tpl kwargs b hinit h
  have hb : b.template = tpl := by
    unfold Binder.init at hinit
    cases hcheck : checkStringInterps tpl.args with
    | error e => rw [hcheck] at hinit; exact absurd hinit (by simp)
    | ok u =>
      rw [hcheck] at hinit
      simp at hinit
      rw [← hinit]
  obtain ⟨l2, hbind, hrel⟩ := bindList_ok kwargs tpl.args h
  refine ⟨Template.mk l2, ?_, by simpa [Template.args] using hrel⟩
  unfold Binder.bind
  rw [hb, hbind]
  rfl

/-- Witness for C8: binding `name` to `"Dave"` in a one-interpolation
template. -/
theorem c8_binder_bind_amended_witness :
    Binder.init (Template.mk [TPart.lit "Hello ",
        TPart.interp (Interpolation.mk (Val.str "name") "name" Option.none ""),
        TPart.lit "!"])
      = .ok (Binder.mk (Template.mk [TPart.lit "Hello ",
        TPart.interp (Interpolation.mk (Val.str "name") "name" Option.none ""),
        TPart.lit "!"]))
    ∧ ∃ tpl2,
        Binder.bind (Binder.mk (Template.mk [TPart.lit "Hello ",
            TPart.interp (Interpolation.mk (Val.str "name") "name" Option.none ""),
            TPart.lit "!"])) [("name", Val.str "Dave")] = .ok tpl2 ∧
        List.Forall₂ (BoundPart [("name", Val.str "Dave")])
          [TPart.lit "Hello ",
            TPart.interp (Interpolation.mk (Val.str "name") "name" Option.none ""),
            TPart.lit "!"] tpl2.args := by
  refine ⟨rfl, ?_⟩
  exact c8_binder_bind_amended
    (Template.mk [TPart.lit "Hello ",
      TPart.interp (Interpolation.mk (Val.str "name") "name" Option.none ""),
      TPart.lit "!"])
    [("name", Val.str "Dave")]
    (Binder.mk (Template.mk [TPart.lit "Hello ",
      TPart.interp (Interpolation.mk (Val.str "name") "name" Option.none ""),
      TPart.lit "!"]))
    rfl
    (by
      intro i hi
      simp [Template.args] at hi
      subst hi
      exact ⟨"name", rfl, rfl⟩)

/-- Counterexample for C8 as stated: binding name `"x"` to the string
`"y"` produces an interpolation whose expression is `"x"` — the stripped
repr of the original name — whereas the claim's "regenerated from the
resolved value's representation" would give `"y"`. -/
theorem c8_binder_bind_counterexample :
    Binder.bind (Binder.mk (Template.mk [TPart.lit "",
        TPart.interp (Interpolation.mk (Val.str "x") "x" Option.none ""),
        TPart.lit ""])) [("x", Val.str "y")]
      = .ok (Template.mk [TPart.lit "",
        TPart.interp (Interpolation.mk (Val.str "y") "x" Option.none ""),
        TPart.lit ""])
    ∧ ((pyReprStr false "y").drop 1).dropRight 1 = "y"
    ∧ ("x" : String) ≠ "y" := by
  refine ⟨rfl, rfl, by decide⟩

theorem specToksText_cons (tk : SpecTok) (toks : List SpecTok) :
    specToksText (tk :: toks) = specTokText tk ++ specToksText toks := by
  simp [specToksText]

theorem spanNonBrace_append (tail : List Char) :
    ∀ inner : List Char,
      inner.all (fun c => c ≠ obraceChar ∧ c ≠ cbraceChar) = true →
      spanNonBrace (inner ++ cbraceChar :: tail) = (inner, cbraceChar :: tail) := by
  intro inner
  induction inner with
  | nil =>
    intro _
    show spanNonBrace (cbraceChar :: tail) = ([], cbraceChar :: tail)
    simp [spanNonBrace]
  | cons c rest ih =>
    intro h
    simp at h
    obtain ⟨⟨hc1, hc2⟩, hrest⟩ := h
    show spanNonBrace (c :: (rest ++ cbraceChar :: tail)) = (c :: rest, cbraceChar :: tail)
    rw [spanNonBrace]
    rw [if_neg (by simp [hc1, hc2])]
    rw [ih (by simpa using hrest)]

theorem parseSpecF_toks :
    ∀ (toks : List SpecTok) (rest : List Char) (fuel : Nat),
      toks.all specTokOK = true →
      (specToksText toks).length < fuel →
      parseSpecF fuel (specToksText toks ++ cbraceChar :: rest)
        = some (specToksText toks, rest) := by
  intro toks
  induction toks with
  | nil =>
    intro rest fuel _ hf
    match fuel, hf with
    | fuel + 1, _ =>
      show parseSpecF (fuel + 1) (cbraceChar :: rest) = some ([], rest)
      simp [parseSpecF]
  | cons tk toks ih =>
    intro rest fuel hok hf
    simp at hok
    obtain ⟨htk, htoks⟩ := hok
    rw [specToksText_cons] at hf ⊢
    cases tk with
    | chr c =>
      simp [specTokOK] at htk
      obtain ⟨hc1, hc2⟩ := htk
      match fuel, hf with
      | fuel + 1, hf =>
        have harr0 : (specTokText (SpecTok.chr c) ++ specToksText toks) ++ cbraceChar :: rest
            = c :: (specToksText toks ++ cbraceChar :: rest) := by
          simp [specTokText]
        rw [harr0, parseSpecF]
        rw [if_neg (by simp [hc2]), if_neg (by simp [hc1])]
        rw [ih rest fuel (by simpa using htoks) (by
          simp [specTokText] at hf
          omega)]
        simp [specTokText]
    | block inner =>
      simp only [specTokOK] at htk
      match fuel, hf with
      | fuel + 1, hf =>
        have harr0 : (specTokText (SpecTok.block inner) ++ specToksText toks) ++ cbraceChar :: rest
            = obraceChar :: (inner ++ cbraceChar :: (specToksText toks ++ cbraceChar :: rest)) := by
          simp [specTokText]
        rw [harr0, parseSpecF]
        rw [if_neg (by decide), if_pos rfl]
        rw [spanNonBrace_append _ inner htk]
        show (if cbraceChar = cbraceChar then
            match parseSpecF fuel (specToksText toks ++ cbraceChar :: rest) with
            | some (sp, rem) => some (obraceChar :: (inner ++ cbraceChar :: sp), rem)
            | Option.none => Option.none
          else Option.none)
          = some (specTokText (SpecTok.block inner) ++ specToksText toks, rest)
        rw [if_pos rfl, ih rest fuel (by simpa using htoks) (by
          simp [specTokText] at hf
          omega)]
        simp [specTokText]

theorem trySpecClose_spec (toks : List SpecTok) (rest : List Char) (fuel : Nat)
    (h : toks.all specTokOK = true) (hf : (specToksText toks).length < fuel) :
    trySpecClose fuel (':' :: (specToksText toks ++ cbraceChar :: rest))
      = some (some (specToksText toks), rest) := by
  simp [trySpecClose, parseSpecF_toks toks rest fuel h hf]
  decide

theorem tryTail_key_char (fuel : Nat) (c : Char) (cs : List Char)
    (hc : KeyCharOK c = true) : tryTail fuel (c :: cs) = Option.none := by
  simp [KeyCharOK] at hc
  obtain ⟨h1, h2, h3, h4⟩ := hc
  simp [tryTail, trySpecClose, h2, h3, h4, Option.orElse]

theorem tryTail_fieldTail (cv : Option Char) (sp : Option (List SpecTok))
    (rest : List Char) (fuel : Nat)
    (hcv : convOK cv)
    (hsp : ∀ toks, sp = some toks → toks.all specTokOK = true)
    (hf : ∀ toks, sp = some toks → (specToksText toks).length < fuel) :
    tryTail fuel (fieldTailText cv sp ++ rest)
      = some (cv, sp.map specToksText, rest) := by
  cases cv with
  | none =>
    cases sp with
    | none =>
      have harr : fieldTailText Option.none Option.none ++ rest
          = cbraceChar :: rest := by simp [fieldTailText]
      rw [harr]
      simp [tryTail, trySpecClose, Option.orElse, cbraceChar]
    | some toks =>
      have harr : fieldTailText Option.none (some toks) ++ rest
          = ':' :: (specToksText toks ++ cbraceChar :: rest) := by
        simp [fieldTailText]
      rw [harr]
      simp only [tryTail, Option.orElse]
      rw [trySpecClose_spec toks rest fuel (hsp toks rfl) (hf toks rfl)]
      simp
  | some c =>
    have hc : c = 's' ∨ c = 'r' ∨ c = 'a' := hcv
    cases sp with
    | none =>
      have harr : fieldTailText (some c) Option.none ++ rest
          = '!' :: c :: (cbraceChar :: rest) := by simp [fieldTailText]
      rw [harr]
      rcases hc with h | h | h <;> subst h <;>
        simp [tryTail, trySpecClose, Option.orElse, cbraceChar]
    | some toks =>
      have harr : fieldTailText (some c) (some toks) ++ rest
          = '!' :: c :: (':' :: (specToksText toks ++ cbraceChar :: rest)) := by
        simp [fieldTailText]
      rw [harr]
      rcases hc with h | h | h <;> subst h <;>
        · simp only [tryTail, Option.orElse]
          rw [trySpecClose_spec toks rest fuel (hsp toks rfl) (hf toks rfl)]
          try simp

theorem tryKey_some (fuel : Nat) (acc cs : List Char)
    (r : Option Char × Option (List Char) × List Char)
    (h : tryTail fuel cs = some r) :
    tryKey fuel acc cs = some (acc.reverse, r.1, r.2.1, r.2.2) := by
  cases cs with
  | nil => simp [tryKey, h]
  | cons c rest => simp [tryKey, h]

theorem tryKey_none_cons (fuel : Nat) (acc : List Char) (c : Char)
    (rest : List Char) (h : tryTail fuel (c :: rest) = Option.none) :
    tryKey fuel acc (c :: rest)
      = if c = obraceChar ∨ c = cbraceChar then Option.none
        else tryKey fuel (c :: acc) rest := by
  simp [tryKey, h]

theorem tryKey_through (fuel : Nat) (cv : Option Char) (sp : Option (List SpecTok))
    (rest : List Char)
    (hcv : convOK cv)
    (hsp : ∀ toks, sp = some toks → toks.all specTokOK = true)
    (hf : ∀ toks, sp = some toks → (specToksText toks).length < fuel) :
    ∀ (kl : List Char) (acc : List Char), kl.all KeyCharOK = true →
      tryKey fuel acc (kl ++ (fieldTailText cv sp ++ rest))
        = some (acc.reverse ++ kl, cv, sp.map specToksText, rest) := by
  intro kl
  induction kl with
  | nil =>
    intro acc _
    show tryKey fuel acc (fieldTailText cv sp ++ rest) = _
    rw [tryKey_some fuel acc _ _ (tryTail_fieldTail cv sp rest fuel hcv hsp hf)]
    simp
  | cons c kl ih =>
    intro acc h
    simp at h
    obtain ⟨hc, hkl⟩ := h
    show tryKey fuel acc (c :: (kl ++ (fieldTailText cv sp ++ rest))) = _
    have hcb : ¬(c = obraceChar ∨ c = cbraceChar) := by
      simp [KeyCharOK] at hc
      simp [hc.1, hc.2.1]
    rw [tryKey_none_cons fuel acc c _ (tryTail_key_char fuel c _ hc),
      if_neg hcb, ih (c :: acc) (by simpa using hkl)]
    simp

theorem matchFieldBody_mk (f : FieldD) (rest : List Char)
    (hkey : KeyOK f.key = true) (hcv : convOK f.cv)
    (hsp : ∀ toks, f.sp = some toks → toks.all specTokOK = true) :
    matchFieldBody (f.key.toList ++ (fieldTailText f.cv f.sp ++ rest))
      = some (rawFieldOf f, rest) := by
  have hf : ∀ toks, f.sp = some toks → (specToksText toks).length
      < (f.key.toList ++ (fieldTailText f.cv f.sp ++ rest)).length + 1 := by
    intro toks hs
    simp [fieldTailText, hs]
    cases f.cv <;> simp <;> omega
  unfold matchFieldBody
  rw [tryKey_through _ f.cv f.sp rest hcv hsp hf f.key.toList [] hkey]
  simp [rawFieldOf]
  cases f.sp <;> rfl

theorem findField_none : ∀ (l pre : List Char),
    l.all (fun c => c ≠ obraceChar) = true → findField pre l = Option.none := by
  intro l
  induction l with
  | nil => intro pre _; rfl
  | cons c cl ih =>
    intro pre h
    simp at h
    show findField pre (c :: cl) = Option.none
    simp [findField, h.1]
    exact ih (c :: pre) (by simpa using h.2)

theorem findField_through (body : List Char) (fld : RawField) (rem : List Char)
    (hbody : matchFieldBody body = some (fld, rem)) :
    ∀ (l pre : List Char), l.all (fun c => c ≠ obraceChar) = true →
      findField pre (l ++ obraceChar :: body) = some (pre.reverse ++ l, fld, rem) := by
  intro l
  induction l with
  | nil =>
    intro pre _
    show findField pre (obraceChar :: body) = _
    simp [findField, hbody]
  | cons c cl ih =>
    intro pre h
    simp at h
    show findField pre (c :: (cl ++ obraceChar :: body)) = _
    simp only [findField]
    rw [if_neg h.1]
    rw [ih (c :: pre) (by simpa using h.2)]
    simp

theorem splitStatic_all_lit (pre : List Char) :
    (splitStatic pre).all isLitItem = true := by
  unfold splitStatic
  split
  · dsimp only
    split <;> simp [isLitItem]
  · split <;> simp [isLitItem]

theorem mkFmtText_cons (s : String) (ss : List String) (f : FieldD) (fs : List FieldD) :
    mkFmtText (s :: ss) (f :: fs) = s.toList ++ (fieldDText f ++ mkFmtText ss fs) := by
  cases ss <;> rfl

theorem fieldTailText_len (cv : Option Char) (sp : Option (List SpecTok)) :
    1 ≤ (fieldTailText cv sp).length := by
  cases cv <;> cases sp <;> simp [fieldTailText]

theorem rawScanF_mk : ∀ (fs : List FieldD) (ss : List String) (fuel : Nat),
    ss.length = fs.length + 1 →
    (∀ s ∈ ss, StaticOK s = true) →
    (∀ f ∈ fs, KeyOK f.key = true ∧ convOK f.cv ∧
      (∀ toks, f.sp = some toks → toks.all specTokOK = true)) →
    (mkFmtText ss fs).length < fuel →
    rawScanF fuel (mkFmtText ss fs)
      = (match ss, fs with
         | [s], [] => if s.toList.isEmpty then [] else [RawItem.lit (String.mk s.toList)]
         | s :: ss2, f :: fs2 =>
             splitStatic s.toList
               ++ (RawItem.field (rawFieldOf f) :: rawScanF (fuel - 1) (mkFmtText ss2 fs2))
         | _, _ => []) := by
  intro fs
  induction fs with
  | nil =>
    intro ss fuel hlen hss _ hfuel
    match ss, hlen with
    | [s], _ =>
      have hs := hss s (by simp)
      simp only [StaticOK] at hs
      match fuel, hfuel with
      | fuel + 1, _ =>
        show (match findField [] s.toList with
          | some (pre, fld, rem) =>
              splitStatic pre ++ (RawItem.field fld :: rawScanF fuel rem)
          | Option.none => if s.toList.isEmpty then [] else [RawItem.lit (String.mk s.toList)]) = _
        rw [findField_none s.toList [] hs]
  | cons f fs ih =>
    intro ss fuel hlen hss hfs hfuel
    match ss, hlen with
    | s :: ss2, hlen =>
      have hs := hss s (by simp)
      simp only [StaticOK] at hs
      have hf0 := hfs f (by simp)
      rw [mkFmtText_cons] at hfuel ⊢
      match fuel, hfuel with
      | fuel + 1, hfuel =>
        have hbody : matchFieldBody
            ((f.key.toList ++ fieldTailText f.cv f.sp) ++ mkFmtText ss2 fs)
            = some (rawFieldOf f, mkFmtText ss2 fs) := by
          rw [List.append_assoc]
          exact matchFieldBody_mk f (mkFmtText ss2 fs) hf0.1 hf0.2.1 hf0.2.2
        have hfield : fieldDText f ++ mkFmtText ss2 fs
            = obraceChar :: ((f.key.toList ++ fieldTailText f.cv f.sp) ++ mkFmtText ss2 fs) := by
          simp [fieldDText]
        show (match findField [] (s.toList ++ (fieldDText f ++ mkFmtText ss2 fs)) with
          | some (pre, fld, rem) =>
              splitStatic pre ++ (RawItem.field fld :: rawScanF fuel rem)
          | Option.none => if (s.toList ++ (fieldDText f ++ mkFmtText ss2 fs)).isEmpty then []
              else [RawItem.lit (String.mk (s.toList ++ (fieldDText f ++ mkFmtText ss2 fs)))]) = _
        rw [hfield, findField_through _ _ _ hbody s.toList [] hs]
        simp

theorem all_and_left {α : Type} (p q : α → Bool) (l : List α)
    (h : l.all (fun x => p x && q x) = true) : l.all p = true := by
  simp [List.all_eq_true] at h ⊢
  intro x hx
  exact (h x hx).1

theorem keyok_no_bang (k : String) (h : KeyOK k = true) :
    '!' ∉ k.toList := by
  simp [KeyOK, List.all_eq_true] at h
  intro hmem
  have h2 := h '!' hmem
  simp [KeyCharOK] at h2

theorem specChr_skip_notimpl (toks : List SpecTok)
    (h : toks.all (fun tk => specTokOK tk && specTokIsChr tk) = true) :
    ¬(String.mk (specToksText toks) ≠ "" ∧
      strStartsWithChar obraceChar (String.mk (specToksText toks)) = true ∧
      strEndsWithChar cbraceChar (String.mk (specToksText toks)) = true) := by
  cases toks with
  | nil =>
    intro hcon
    exact hcon.1 rfl
  | cons t ts =>
    intro hcon
    simp [List.all_eq_true] at h
    have ht := h.1
    cases t with
    | block inner => simp [specTokIsChr] at ht
    | chr c =>
      simp [specTokOK, specTokIsChr] at ht
      have hstart := hcon.2.1
      rw [specToksText_cons] at hstart
      simp [strStartsWithChar, specTokText] at hstart
      exact ht.1 hstart

theorem processField_plain (f : FieldD) (hpf : plainField f) (n : Nat)
    (m : Option NumMode) :
    processField (n, m) (rawFieldOf f)
      = (if f.key = "" then
           if m = some NumMode.manual then .error (.valueError autoManualMsg)
           else .ok (PItem.interp (some n) Option.none ((rawFieldOf f).spec.getD "")
             ((rawFieldOf f).conv), (n + 1, some NumMode.auto))
         else if pyIsDigit f.key then
           if m = some NumMode.auto then .error (.valueError autoManualMsg)
           else .ok (PItem.interp (some (digitsToNat f.key)) Option.none
             ((rawFieldOf f).spec.getD "") ((rawFieldOf f).conv),
             (n, some NumMode.manual))
         else .ok (PItem.interp Option.none (some f.key) ((rawFieldOf f).spec.getD "")
             ((rawFieldOf f).conv), (n, m))) := by
  obtain ⟨hkey, hcv, hsp⟩ := hpf
  have hnotimpl : ¬((rawFieldOf f).spec.getD "" ≠ "" ∧
      strStartsWithChar obraceChar ((rawFieldOf f).spec.getD "") = true ∧
      strEndsWithChar cbraceChar ((rawFieldOf f).spec.getD "") = true) := by
    cases hs : f.sp with
    | none => simp [rawFieldOf, hs]
    | some toks =>
      have := specChr_skip_notimpl toks (hsp toks hs)
      simpa [rawFieldOf, hs] using this
  have hbang := keyok_no_bang f.key hkey
  cases hcv2 : f.cv with
  | none =>
    simp only [processField, rawFieldOf, hcv2, Option.map_none]
    rw [if_pos (by simp)]
    rw [if_neg (by simpa [rawFieldOf, hcv2] using hnotimpl)]
    rw [if_neg (by simpa using hbang)]
    simp [rawFieldOf, hcv2]
  | some c =>
    have hc : c = 's' ∨ c = 'r' ∨ c = 'a' := by rw [hcv2] at hcv; exact hcv
    rcases hc with h | h | h <;> subst h <;>
    · simp only [processField, rawFieldOf, hcv2, Option.map_some]
      rw [if_pos (by simp)]
      rw [if_neg (by simpa [rawFieldOf, hcv2] using hnotimpl)]
      rw [if_neg (by simpa using hbang)]
      simp [rawFieldOf, hcv2]

theorem parseFmtItems_lit_cons (st : Nat × Option NumMode) (s : String)
    (rest : List RawItem) :
    parseFmtItems st (RawItem.lit s :: rest)
      = (parseFmtItems st rest).map (fun r => PItem.lit s :: r) := by
  cases h : parseFmtItems st rest <;> simp [parseFmtItems, h, Except.map]

theorem parseFmtItems_field_cons (st : Nat × Option NumMode) (fld : RawField)
    (rest : List RawItem) :
    parseFmtItems st (RawItem.field fld :: rest)
      = (match processField st fld with
         | .error e => .error e
         | .ok is2 => (parseFmtItems is2.2 rest).map (fun r => is2.1 :: r)) := by
  show (do
      let is2 ← processField st fld
      let r ← parseFmtItems is2.2 rest
      return is2.1 :: r) = _
  cases h : processField st fld with
  | error e => rfl
  | ok is2 =>
    show (do
        let r ← parseFmtItems is2.2 rest
        return is2.1 :: r)
      = (parseFmtItems is2.2 rest).map (fun r => is2.1 :: r)
    cases parseFmtItems is2.2 rest <;> rfl

theorem parseFmtItems_lits_error (ls : List RawItem) (h : ls.all isLitItem = true) :
    ∀ (st : Nat × Option NumMode) (rest : List RawItem) (e : PyErr),
      (parseFmtItems st (ls ++ rest) = .error e ↔ parseFmtItems st rest = .error e) := by
  induction ls with
  | nil => intro st rest e; simp
  | cons item ls ih =>
    intro st rest e
    cases item with
    | field fld => simp [isLitItem] at h
    | lit s =>
      simp only [isLitItem, List.all_cons, Bool.true_and] at h
      rw [List.cons_append, parseFmtItems_lit_cons]
      have hmap : ∀ (x : Except PyErr (List PItem)),
          (x.map (fun r => PItem.lit s :: r) = .error e ↔ x = .error e) := by
        intro x; cases x <;> simp [Except.map]
      rw [hmap]
      exact ih h st rest e

theorem fieldDText_len (f : FieldD) : 2 ≤ (fieldDText f).length := by
  have := fieldTailText_len f.cv f.sp
  simp [fieldDText]
  omega

theorem rawScanF_mk_cons (f : FieldD) (fs : List FieldD) (s : String)
    (ss2 : List String) (fuel : Nat)
    (hlen : (s :: ss2).length = (f :: fs).length + 1)
    (hss : ∀ s2 ∈ s :: ss2, StaticOK s2 = true)
    (hraw : ∀ f2 ∈ f :: fs, KeyOK f2.key = true ∧ convOK f2.cv ∧
      (∀ toks, f2.sp = some toks → toks.all specTokOK = true))
    (hfuel : (mkFmtText (s :: ss2) (f :: fs)).length < fuel) :
    rawScanF fuel (mkFmtText (s :: ss2) (f :: fs))
      = splitStatic s.toList
          ++ (RawItem.field (rawFieldOf f)
              :: rawScanF (fuel - 1) (mkFmtText ss2 fs)) := by
  rw [rawScanF_mk (f :: fs) (s :: ss2) fuel hlen hss hraw hfuel]
  cases ss2 <;> rfl

theorem c6_mode_mix_fold :
    ∀ (fs : List FieldD) (ss : List String) (fuel n : Nat) (m : Option NumMode),
      ss.length = fs.length + 1 →
      (∀ s ∈ ss, StaticOK s = true) →
      (∀ f ∈ fs, plainField f) →
      (mkFmtText ss fs).length < fuel →
      NumMode.auto ∈ (m.toList ++ modesOf fs) →
      NumMode.manual ∈ (m.toList ++ modesOf fs) →
      parseFmtItems (n, m) (rawScanF fuel (mkFmtText ss fs))
        = .error (.valueError autoManualMsg) := by
  have hmaperr : ∀ (x : Except PyErr (List PItem)) (g : List PItem → List PItem),
      x = .error (.valueError autoManualMsg) →
      x.map g = .error (.valueError autoManualMsg) := by
    intro x g hx
    rw [hx]
    rfl
  intro fs
  induction fs with
  | nil =>
    intro ss fuel n m _ _ _ _ hauto hmanual
    exfalso
    simp [modesOf] at hauto hmanual
    cases m with
    | none => simp at hauto
    | some μ =>
      simp at hauto hmanual
      rw [hauto] at hmanual
      exact absurd hmanual (by decide)
  | cons f fs ih =>
    intro ss fuel n m hlen hss hfs hfuel hauto hmanual
    match ss, hlen with
    | s :: ss2, hlen =>
      have hpf := hfs f (by simp)
      have hraw : ∀ f2 ∈ f :: fs, KeyOK f2.key = true ∧ convOK f2.cv ∧
          (∀ toks, f2.sp = some toks → toks.all specTokOK = true) := by
        intro f2 hf2
        obtain ⟨h1, h2, h3⟩ := hfs f2 hf2
        exact ⟨h1, h2, fun toks hs => all_and_left _ _ _ (h3 toks hs)⟩
      have hlen2 : ss2.length = fs.length + 1 := by simpa using hlen
      have hss2 : ∀ s2 ∈ ss2, StaticOK s2 = true :=
        fun s2 hs2 => hss s2 (List.mem_cons_of_mem _ hs2)
      have hfs2 : ∀ f2 ∈ fs, plainField f2 :=
        fun f2 hf2 => hfs f2 (List.mem_cons_of_mem _ hf2)
      have hfuel2 : (mkFmtText ss2 fs).length < fuel - 1 := by
        rw [mkFmtText_cons] at hfuel
        have := fieldDText_len f
        simp [List.length_append] at hfuel
        omega
      rw [rawScanF_mk_cons f fs s ss2 fuel hlen hss hraw hfuel]
      apply (parseFmtItems_lits_error (splitStatic s.toList)
        (splitStatic_all_lit s.toList) (n, m) _ _).mpr
      rw [parseFmtItems_field_cons, processField_plain f hpf n m]
      by_cases hk : f.key = ""
      · have hmode : fieldMode f = some NumMode.auto := by simp [fieldMode, hk]
        rw [if_pos hk]
        by_cases hm : m = some NumMode.manual
        · rw [if_pos hm]
        · rw [if_neg hm]
          have hmem : NumMode.manual ∈ modesOf fs := by
            rw [show modesOf (f :: fs) = NumMode.auto :: modesOf fs from by
              simp [modesOf, List.filterMap_cons, hmode]] at hmanual
            rcases List.mem_append.mp hmanual with hin | hin
            · exfalso
              cases m with
              | none => simp at hin
              | some μ =>
                simp at hin
                exact hm (by rw [hin])
            · rcases List.mem_cons.mp hin with h1 | h1
              · exact absurd h1 (by decide)
              · exact h1
          exact hmaperr _ _ (ih ss2 (fuel - 1) (n + 1) (some NumMode.auto)
            hlen2 hss2 hfs2 hfuel2 (by simp) (by simp [hmem]))
      · by_cases hd : pyIsDigit f.key
        · have hmode : fieldMode f = some NumMode.manual := by
            simp [fieldMode, hk, hd]
          rw [if_neg hk, if_pos hd]
          by_cases hm : m = some NumMode.auto
          · rw [if_pos hm]
          · rw [if_neg hm]
            have hmem : NumMode.auto ∈ modesOf fs := by
              rw [show modesOf (f :: fs) = NumMode.manual :: modesOf fs from by
                simp [modesOf, List.filterMap_cons, hmode]] at hauto
              rcases List.mem_append.mp hauto with hin | hin
              · exfalso
                cases m with
                | none => simp at hin
                | some μ =>
                  simp at hin
                  exact hm (by rw [hin])
              · rcases List.mem_cons.mp hin with h1 | h1
                · exact absurd h1 (by decide)
                · exact h1
            exact hmaperr _ _ (ih ss2 (fuel - 1) n (some NumMode.manual)
              hlen2 hss2 hfs2 hfuel2 (by simp [hmem]) (by simp))
        · have hmode : fieldMode f = Option.none := by simp [fieldMode, hk, hd]
          rw [if_neg hk, if_neg hd]
          have hmodes : modesOf (f :: fs) = modesOf fs := by
            simp [modesOf, List.filterMap_cons, hmode]
          rw [hmodes] at hauto hmanual
          exact hmaperr _ _ (ih ss2 (fuel - 1) n m
            hlen2 hss2 hfs2 hfuel2 hauto hmanual)

theorem rawScanF_nil (fuel : Nat) : rawScanF fuel [] = [] := by
  cases fuel <;> rfl

/-- C6 (corrected): mixing auto-numbered and manually indexed fields does
raise a ValueError — but the source raises the *same* message
(`autoManualMsg`, the automatic-to-manual wording) for both directions,
so the error does not identify which transition was attempted (see the
counterexample).  Stated over every format string assembled from
opening-brace-free static runs and fields whose only possible parse error
is the numbering check: whenever both modes occur, `_parse_fmt_string`
raises exactly that ValueError. -/
theorem c6_numbering_mode_amended :
    ∀ (ss : List String) (fs : List FieldD),
      ss.length = fs.length + 1 →
      (∀ s ∈ ss, StaticOK s = true) →
      (∀ f ∈ fs, plainField f) →
      NumMode.auto ∈ modesOf fs →
      NumMode.manual ∈ modesOf fs →
      parseFmtString (String.mk (mkFmtText ss fs))
        = .error (.valueError autoManualMsg) := by
  intro ss fs hlen hss hfs hauto hmanual
  show parseFmtItems (0, Option.none)
      (rawScanF ((String.mk (mkFmtText ss fs)).length + 1)
        (String.mk (mkFmtText ss fs)).toList) = _
  have htl : (String.mk (mkFmtText ss fs)).toList = mkFmtText ss fs := rfl
  have hln : (String.mk (mkFmtText ss fs)).length = (mkFmtText ss fs).length := rfl
  rw [htl, hln]
  exact c6_mode_mix_fold fs ss ((mkFmtText ss fs).length + 1) 0 Option.none
    hlen hss hfs (by omega) (by simpa using hauto) (by simpa using hmanual)

/-- Witness for C6: the format string assembled as an automatic field
followed by a manual field (the text of `"\x7b\x7d\x7b1\x7d"`). -/
theorem c6_numbering_mode_amended_witness :
    parseFmtString (String.mk (mkFmtText ["", "", ""]
        [FieldD.mk "" Option.none Option.none, FieldD.mk "1" Option.none Option.none]))
      = .error (.valueError autoManualMsg) := by
  apply c6_numbering_mode_amended ["", "", ""]
    [FieldD.mk "" Option.none Option.none, FieldD.mk "1" Option.none Option.none]
    (by decide) (by decide)
    (by
      intro f hf
      simp at hf
      rcases hf with hf | hf <;> subst hf <;>
        exact ⟨by decide, trivial, fun toks h => by cases h⟩)
    (by decide) (by decide)

/-- Counterexample for C6 as stated: the automatic-then-manual string and
the manual-then-automatic string raise *identical* errors, so the error
does not identify which transition was attempted; the shared message is
the automatic-to-manual wording. -/
theorem c6_counterexample :
    parseFmtString "\x7b\x7d\x7b1\x7d" = parseFmtString "\x7b1\x7d\x7b\x7d"
    ∧ parseFmtString "\x7b\x7d\x7b1\x7d"
      = .error (.valueError
          "cannot switch from automatic field numbering to manual field specification") :=
  ⟨rfl, rfl⟩

theorem rawScan_single_field (f : FieldD)
    (hkey : KeyOK f.key = true) (hcv : convOK f.cv)
    (hsp : ∀ toks, f.sp = some toks → toks.all specTokOK = true) :
    rawScan (String.mk (fieldDText f)) = [RawItem.field (rawFieldOf f)] := by
  show rawScanF ((String.mk (fieldDText f)).length + 1)
      (String.mk (fieldDText f)).toList = _
  have htl : (String.mk (fieldDText f)).toList = fieldDText f := rfl
  have hln : (String.mk (fieldDText f)).length = (fieldDText f).length := rfl
  rw [htl, hln]
  show (match findField [] (fieldDText f) with
    | some (pre, fld, rem) =>
        splitStatic pre ++ (RawItem.field fld :: rawScanF (fieldDText f).length rem)
    | Option.none => if (fieldDText f).isEmpty then []
        else [RawItem.lit (String.mk (fieldDText f))]) = _
  have hbody : matchFieldBody (f.key.data ++ fieldTailText f.cv f.sp)
      = some (rawFieldOf f, []) := by
    have harr : f.key.data ++ fieldTailText f.cv f.sp
        = f.key.toList ++ (fieldTailText f.cv f.sp ++ []) := by simp [String.toList]
    rw [harr]
    exact matchFieldBody_mk f [] hkey hcv hsp
  have hff : findField [] (fieldDText f)
      = some ([], rawFieldOf f, []) := by
    show findField [] (obraceChar :: (f.key.toList ++ fieldTailText f.cv f.sp)) = _
    simp [findField, hbody]
  rw [hff]
  show splitStatic [] ++ (RawItem.field (rawFieldOf f)
      :: rawScanF (fieldDText f).length []) = _
  rw [rawScanF_nil]
  rfl

theorem processField_single (k : String) (toks : List SpecTok)
    (hkey : KeyOK k = true) :
    processField (0, Option.none) (rawFieldOf (FieldD.mk k Option.none (some toks)))
      = (let sp := String.mk (specToksText toks)
         if sp ≠ "" ∧ strStartsWithChar obraceChar sp = true ∧
             strEndsWithChar cbraceChar sp = true then
           .error (.notImplementedError "Format spec interpolations are not supported")
         else if k = "" then
           .ok (PItem.interp (some 0) Option.none sp Option.none, (1, some NumMode.auto))
         else if pyIsDigit k then
           .ok (PItem.interp (some (digitsToNat k)) Option.none sp Option.none,
             (0, some NumMode.manual))
         else
           .ok (PItem.interp Option.none (some k) sp Option.none, (0, Option.none))) := by
  have hbang := keyok_no_bang k hkey
  simp only [processField, rawFieldOf, Option.map_none, Option.map_some]
  rw [if_pos (by simp)]
  by_cases hni : String.mk (specToksText toks) ≠ "" ∧
      strStartsWithChar obraceChar (String.mk (specToksText toks)) = true ∧
      strEndsWithChar cbraceChar (String.mk (specToksText toks)) = true
  · rw [if_pos (by simpa using hni)]
    simp [hni]
  · rw [if_neg (by simpa using hni)]
    rw [if_neg (by simpa using hbang)]
    simp only [hni, if_false]
    by_cases hk : k = ""
    · rw [if_pos hk]
      rw [if_neg (by decide)]
      simp [hk]
    · rw [if_neg hk]
      by_cases hd : pyIsDigit k
      · rw [if_pos hd]
        rw [if_neg (by decide)]
        simp [hk, hd]
      · rw [if_neg hd]
        simp [hk, hd]

/-- C5 (corrected): `make_template` is itself the parser that rejects
nested format specs, not the one that resolves them: via
`_parse_fmt_string`, a format spec that both starts and ends with a brace
raises NotImplementedError, and every other well-formed spec — including
ones containing embedded placeholders such as `.` `precision`-block `f` —
is attached literally, never resolved against the arguments.  Stated over
every single-field format string with a well-formed key and spec. -/
theorem c5_make_template_spec_amended :
    ∀ (k : String) (toks : List SpecTok),
      KeyOK k = true → toks.all specTokOK = true →
      parseFmtString (String.mk (fieldDText (FieldD.mk k Option.none (some toks))))
        = (let sp := String.mk (specToksText toks)
           if sp ≠ "" ∧ strStartsWithChar obraceChar sp = true ∧
               strEndsWithChar cbraceChar sp = true then
             .error (.notImplementedError "Format spec interpolations are not supported")
           else if k = "" then .ok [PItem.interp (some 0) Option.none sp Option.none]
           else if pyIsDigit k then
             .ok [PItem.interp (some (digitsToNat k)) Option.none sp Option.none]
           else .ok [PItem.interp Option.none (some k) sp Option.none]) := by
  intro k toks hkey htoks
  unfold parseFmtString
  rw [rawScan_single_field (FieldD.mk k Option.none (some toks)) hkey trivial
    (fun t2 h => by cases h; exact htoks)]
  rw [parseFmtItems_field_cons, processField_single k toks hkey]
  dsimp only
  by_cases hni : String.mk (specToksText toks) ≠ "" ∧
      strStartsWithChar obraceChar (String.mk (specToksText toks)) = true ∧
      strEndsWithChar cbraceChar (String.mk (specToksText toks)) = true
  · rw [if_pos hni, if_pos hni]
  · rw [if_neg hni, if_neg hni]
    by_cases hk : k = ""
    · rw [if_pos hk, if_pos hk]
      rfl
    · rw [if_neg hk, if_neg hk]
      by_cases hd : pyIsDigit k = true
      · rw [if_pos hd, if_pos hd]
        rfl
      · rw [if_neg hd, if_neg hd]
        rfl

/-- Witness for C5: the single-field string with key `n` and the spec
`.` `precision`-block `f` parses to an interpolation whose format spec is
the literal, unresolved text. -/
theorem c5_make_template_spec_amended_witness :
    KeyOK "n" = true
    ∧ ([SpecTok.chr '.', SpecTok.block "precision".toList,
        SpecTok.chr 'f'].all specTokOK) = true
    ∧ parseFmtString (String.mk (fieldDText (FieldD.mk "n" Option.none
        (some [SpecTok.chr '.', SpecTok.block "precision".toList, SpecTok.chr 'f']))))
      = .ok [PItem.interp Option.none (some "n") ".\x7bprecision\x7df" Option.none] := by
  refine ⟨by decide, by decide, ?_⟩
  rw [c5_make_template_spec_amended "n" _ (by decide) (by decide)]
  rfl

/-- Counterexample for C5 as stated: `make_template` — which the claim
calls the full parser — raises NotImplementedError on `"\x7b:\x7b\x7d\x7d"`
(the very example its own docstring gives), and on
`"\x7bn:.\x7bprecision\x7df\x7d"` it attaches the format spec
`".\x7bprecision\x7df"` literally instead of resolving the `precision`
placeholder against the supplied keyword arguments. -/
theorem c5_counterexample :
    makeTemplate "\x7b:\x7b\x7d\x7d" [Val.int 42, Val.str ".2f"] []
      = .error (.notImplementedError "Format spec interpolations are not supported")
    ∧ makeTemplate "\x7bn:.\x7bprecision\x7df\x7d" []
        [("n", Val.int 42), ("precision", Val.int 2)]
      = .ok (Template.mk [TPart.interp (Interpolation.mk (Val.int 42)
          ("kwargs[" ++ pyReprStr false "n" ++ "]") Option.none
          ".\x7bprecision\x7df")]) :=
  ⟨rfl, rfl⟩

/-- C4 (code bug): the parser in src/pep/format.py does not accept
attribute/item-access suffix chains after the key: the whole field text
`a[1]` is parsed as a single keyword key, and `make_template` then raises
`KeyError("a[1]")` instead of resolving `kwargs["a"]` and applying the
`[1]` item access — contradicting the repository's own tests
(test_format.py exercises `from_format("Hello, \x7ba[1]\x7d!", a=[99, "world"])`
and seventeen similar dotted/indexed cases; the `from_format` and
`_split_field_name` functions those tests import do not exist in
format.py). -/
theorem c4_no_suffix_chain_code_bug :
    parseFmtString "Hello, \x7ba[1]\x7d!"
      = .ok [PItem.lit "Hello, ",
          PItem.interp Option.none (some "a[1]") "" Option.none, PItem.lit "!"]
    ∧ makeTemplate "Hello, \x7ba[1]\x7d!" []
        [("a", Val.list [Val.int 99, Val.str "world"])]
      = .error (.keyError "a[1]") :=
  ⟨rfl, rfl⟩

/-- C3: `html` on the empty template and on the text-only template
`"plain text, no tags"` both fail with an `HTMLParseError` (no root
element produced, resp. data outside of any root element), while `html`
on the template for `"<br/>"` returns the childless, attribute-less
`br` element — for every component environment. -/
theorem c3_html_fatal_and_br (env : CompEnv) :
    html env (Template.mk [TPart.lit ""])
        = Except.error (PyErr.htmlParseError "No root element")
    ∧ html env (Template.mk [TPart.lit "plain text, no tags"])
        = Except.error (PyErr.htmlParseError
            "Data outside of root element: plain text, no tags")
    ∧ html env (Template.mk [TPart.lit "<br/>"])
        = Except.ok (Element.mk "br" [] []) :=
  ⟨rfl, rfl, rfl⟩

/-- C10: `html` on a template whose literal HTML consists of the end tag
`</p>` with no element open pops from the empty stack and fails with an
`IndexError`, not an `HTMLParseError` — for every component
environment. -/
theorem c10_endtag_empty_stack (env : CompEnv) :
    html env (Template.mk [TPart.lit "</p>"])
      = Except.error (PyErr.indexError "pop from empty list") := rfl

/-- C9 (amended): a string-valued attribute renders as
`key="value"` with the value run through `html.escape(value, quote=True)`
(which escapes `&`, `<`, `>`, `"` and the apostrophe); every non-string
value — `True`, `None`, and also `False` — renders as the bare key; and
`_render_attributes_mapping` renders every entry of the mapping, joined
by single spaces, omitting none. -/
theorem c9_attr_serialization_amended :
    (∀ k s, renderAttribute k (Val.str s)
        = k ++ "=" ++ String.mk [dquoteChar] ++ escape s true
            ++ String.mk [dquoteChar])
    ∧ (∀ k (v : Val), (∀ s, v ≠ Val.str s) → renderAttribute k v = k)
    ∧ (escapeChar true '&' = "&amp;" ∧ escapeChar true '<' = "&lt;"
        ∧ escapeChar true '>' = "&gt;"
        ∧ escapeChar true dquoteChar = "&quot;")
    ∧ (∀ k v rest, renderAttributesMapping ((k, v) :: rest)
        = if rest.isEmpty then renderAttribute k v
          else renderAttribute k v ++ " " ++ renderAttributesMapping rest) := by
  refine ⟨fun k s => rfl, fun k v h => ?_, ⟨rfl, rfl, rfl, rfl⟩, fun k v rest => ?_⟩
  · cases v <;> first | rfl | exact absurd rfl (h _)
  · cases rest <;> rfl

theorem c9_attr_serialization_amended_witness :
    renderAttribute "disabled" (Val.bool true) = "disabled" :=
  c9_attr_serialization_amended.2.1 "disabled" (Val.bool true)
    (fun _ hs => Val.noConfusion hs)

/-- C9 counterexample to the claimed omission: a `False`-valued attribute
is not omitted — `_render_attribute` renders it as the bare key, and it
appears in the serialized element. -/
theorem c9_counterexample :
    renderAttribute "disabled" (Val.bool false) = "disabled"
    ∧ elementStr (Element.mk "input" [("disabled", Val.bool false)] [])
        = "<input disabled />" :=
  ⟨rfl, rfl⟩
